import Mathlib

/-!
Verification development for the expo-geofencing core modules
(src/OfflineManager.ts, src/WebhookManager.ts, src/PolygonGeofence.ts).

The TypeScript sources are shallowly embedded: JavaScript numbers are
modelled as rationals where the code only performs field arithmetic and
comparisons, and as reals where the code calls transcendental functions
(the haversine distance).  JavaScript Map objects are modelled as
association lists with the same set/get semantics, and in-place object
mutation is modelled by explicit state passing.

The file is laid out with all definitions first and all theorems after
them.
-/

open scoped Classical

/- ===================== Definitions ===================== -/

namespace GeoUtil

/-- Association-list rendering of JavaScript Map.get: the value of the
first entry with the given key, if any. -/
def mapGet {κ α : Type} [DecidableEq κ] : List (κ × α) → κ → Option α
  | [], _ => none
  | e :: es, k => if e.1 = k then some e.2 else mapGet es k

/-- JavaScript Map.set: replace the entry in place when the key is
present, otherwise append a fresh entry. -/
def mapSet {κ α : Type} [DecidableEq κ] (m : List (κ × α)) (k : κ) (v : α) : List (κ × α) :=
  if m.any (fun e => decide (e.1 = k)) then
    m.map (fun e => if e.1 = k then (k, v) else e)
  else
    m ++ [(k, v)]

end GeoUtil

namespace Offline

open GeoUtil

/-- Event kind of an OfflineEvent (enter or exit transition). -/
inductive EventType : Type
  | enter
  | exit
  deriving DecidableEq, Repr

/-- LocationPoint from OfflineManager.ts.  The optional accuracy field is
present on live fixes and absent after decompression. -/
structure LocationPoint : Type where
  latitude : ℚ
  longitude : ℚ
  accuracy : Option ℚ
  timestamp : ℤ
  deriving DecidableEq, Repr

/-- OfflineEvent from OfflineManager.ts. -/
structure OfflineEvent : Type where
  id : String
  type : EventType
  regionId : String
  location : LocationPoint
  timestamp : ℤ
  synced : Bool
  deriving DecidableEq, Repr

/-- JavaScript Math.round: round half toward positive infinity. -/
def jsRound (q : ℚ) : ℤ := ⌊q + 1 / 2⌋

/-- Compact wire record produced by compressEvents; the JSON
serialization layer (JSON.stringify and JSON.parse) is a faithful
round-trip on these records and is elided. -/
structure CompressedEvent : Type where
  i : String
  t : ℤ
  r : String
  lat : ℚ
  lng : ℚ
  ts : ℤ
  deriving DecidableEq, Repr

/-- OfflineManager.compressEvents: project each event to a compact
record, rounding coordinates to six decimal places. -/
def compressEvents (events : List OfflineEvent) : List CompressedEvent :=
  events.map (fun event =>
    ({ i := event.id
       t := if event.type = EventType.enter then 1 else 0
       r := event.regionId
       lat := (jsRound (event.location.latitude * 1000000) : ℚ) / 1000000
       lng := (jsRound (event.location.longitude * 1000000) : ℚ) / 1000000
       ts := event.timestamp } : CompressedEvent))

/-- OfflineManager.decompressEvents: rebuild events from compact
records; synced is reset to false and the location carries no accuracy. -/
def decompressEvents (data : List CompressedEvent) : List OfflineEvent :=
  data.map (fun item =>
    ({ id := item.i
       type := if item.t = (1 : ℤ) then EventType.enter else EventType.exit
       regionId := item.r
       location :=
         { latitude := item.lat
           longitude := item.lng
           accuracy := none
           timestamp := item.ts }
       timestamp := item.ts
       synced := false } : OfflineEvent))

/-- A rational has at most six decimal places when scaling by one
million yields an integer. -/
def hasAtMostSixDecimals (q : ℚ) : Prop := ∃ n : ℤ, q * 1000000 = (n : ℚ)

/-- A delivery sink (sync callback) abstracted by its success predicate
on a batch: the Promise resolves iff the predicate is true. -/
abbrev Sink : Type := List OfflineEvent → Bool

/-- A batch succeeds only if every registered sync callback succeeds
(Promise.all over this.syncCallbacks). -/
def allSinksOk (sinks : List Sink) (batch : List OfflineEvent) : Bool :=
  sinks.all (fun s => s batch)

/-- Fuel-indexed chunking loop behind batchEvents. -/
def chunksGo {α : Type} (n : ℕ) : ℕ → List α → List (List α)
  | _, [] => []
  | 0, _ :: _ => []
  | fuel + 1, x :: xs => ((x :: xs).take n) :: chunksGo n fuel ((x :: xs).drop n)

/-- OfflineManager.batchEvents: split the list into consecutive batches
of the given size (the caller always passes 50, the default). -/
def batchEvents (events : List OfflineEvent) (batchSize : ℕ) : List (List OfflineEvent) :=
  chunksGo batchSize events.length events

/-- The in-place marking pass of syncPendingEvents: walking the queue,
the k-th unsynced event belongs to batch number k / n, and is marked
synced when that batch succeeded.  This renders the JavaScript object
mutation (batch.forEach(event => event.synced = true)) as a pure pass
over the queue, using the fact that batches are consecutive runs of the
filtered unsynced list. -/
def markWith (n : ℕ) (ok : ℕ → Bool) : ℕ → List OfflineEvent → List OfflineEvent
  | _, [] => []
  | k, e :: es =>
    if e.synced then e :: markWith n ok k es
    else { e with synced := ok (k / n) } :: markWith n ok (k + 1) es

/-- OfflineManager.syncPendingEvents.  The connected flag stands for
this.networkStatus.isConnected (the syncInProgress guard concerns
concurrent invocations and has no rendering in this sequential model).
Returns the new pending queue and (success, syncedCount, failedCount). -/
def syncPendingEvents (connected : Bool) (sinks : List Sink) (pending : List OfflineEvent) :
    List OfflineEvent × (Bool × ℕ × ℕ) :=
  if !connected then (pending, (false, 0, 0))
  else
    let unsyncedEvents := pending.filter (fun e => !e.synced)
    if unsyncedEvents.isEmpty then (pending, (true, 0, 0))
    else
      let batches := batchEvents unsyncedEvents 50
      let ok : ℕ → Bool := fun i => allSinksOk sinks (batches.getD i [])
      let marked := markWith 50 ok 0 pending
      let syncedCount := ((batches.filter (fun b => allSinksOk sinks b)).map List.length).sum
      let failedCount := ((batches.filter (fun b => !allSinksOk sinks b)).map List.length).sum
      (marked.filter (fun e => !e.synced), (decide (0 < syncedCount), syncedCount, failedCount))

/-- OfflineManager.scheduleSyncAttempt delay sequence: the first attempt
uses the default delay 1000 ms and each failed attempt reschedules with
nextDelay = min(delay * 2, 60000). -/
def offlineRetryDelay : ℕ → ℚ
  | 0 => 1000
  | n + 1 => min (offlineRetryDelay n * 2) 60000

/-- Concrete fix used by witnesses. -/
def sampleFixA : LocationPoint :=
  { latitude := 12.345678, longitude := -0.000001, accuracy := some 5, timestamp := 100 }

/-- Concrete enter event used by witnesses. -/
def sampleEventA : OfflineEvent :=
  { id := "e1", type := EventType.enter, regionId := "r1", location := sampleFixA,
    timestamp := 100, synced := true }

/-- Concrete fix used by witnesses. -/
def sampleFixB : LocationPoint :=
  { latitude := -7.25, longitude := 179.000001, accuracy := none, timestamp := 200 }

/-- Concrete exit event used by witnesses. -/
def sampleEventB : OfflineEvent :=
  { id := "e2", type := EventType.exit, regionId := "r2", location := sampleFixB,
    timestamp := 200, synced := false }

end Offline

namespace Webhook

open GeoUtil

/-- Backoff strategy of a webhook retry configuration. -/
inductive BackoffStrategy : Type
  | linear
  | exponential
  deriving DecidableEq, Repr

/-- WebhookConfig.retryConfig from WebhookManager.ts. -/
structure RetryConfig : Type where
  maxRetries : ℕ
  backoffStrategy : BackoffStrategy
  baseDelay : ℚ
  maxDelay : ℚ
  deriving DecidableEq, Repr

/-- WebhookConfig, restricted to the fields the delivery retry logic
reads; url, headers, auth and rate-limit data only feed the external
HTTP request, whose outcome enters the model as a boolean. -/
structure WebhookConfig : Type where
  id : String
  isActive : Bool
  retryConfig : RetryConfig
  deriving DecidableEq, Repr

/-- Status of a WebhookDeliveryAttempt. -/
inductive DeliveryStatus : Type
  | pending
  | success
  | failed
  | retrying
  deriving DecidableEq, Repr

/-- WebhookDeliveryAttempt, restricted to the fields the retry logic
reads and writes (payload, response body and error text omitted). -/
structure WebhookDeliveryAttempt : Type where
  id : String
  webhookId : String
  attempt : ℕ
  timestamp : ℚ
  status : DeliveryStatus
  nextRetryAt : Option ℚ
  deriving DecidableEq, Repr

/-- WebhookManager.calculateNextRetryTime: exponential or linear
backoff, capped at maxDelay, then jitter (Math.random() * 1000, with
rand standing for the Math.random() draw) added after the cap. -/
def calculateNextRetryTime (retryConfig : RetryConfig) (attempt : ℕ) (rand now : ℚ) : ℚ :=
  let delay :=
    if retryConfig.backoffStrategy = BackoffStrategy.linear then
      retryConfig.baseDelay * attempt
    else
      retryConfig.baseDelay * 2 ^ (attempt - 1)
  let capped := min delay retryConfig.maxDelay
  let jittered := capped + rand * 1000
  now + jittered

/-- WebhookManager.attemptDelivery, with the HTTP request outcome
supplied as the boolean httpOk.  On failure, a retry is scheduled only
while attempt < maxRetries; otherwise the delivery keeps status failed. -/
def attemptDelivery (webhooks : List (String × WebhookConfig)) (httpOk : Bool) (rand now : ℚ)
    (d : WebhookDeliveryAttempt) : WebhookDeliveryAttempt :=
  match mapGet webhooks d.webhookId with
  | none => { d with status := DeliveryStatus.failed }
  | some w =>
    if !w.isActive then { d with status := DeliveryStatus.failed }
    else if httpOk then { d with status := DeliveryStatus.success }
    else if d.attempt < w.retryConfig.maxRetries then
      { d with
        status := DeliveryStatus.retrying
        attempt := d.attempt + 1
        nextRetryAt := some (calculateNextRetryTime w.retryConfig (d.attempt + 1) rand now) }
    else { d with status := DeliveryStatus.failed }

/-- The cleanup step of WebhookManager.processDeliveryQueue: only
pending and retrying deliveries stay in the queue. -/
def cleanupDeliveryQueue (q : List WebhookDeliveryAttempt) : List WebhookDeliveryAttempt :=
  q.filter (fun d => d.status = DeliveryStatus.pending ∨ d.status = DeliveryStatus.retrying)

/-- Concrete webhook with the default retry configuration (maxRetries 3,
exponential, base 1000 ms, cap 60000 ms). -/
def cexWebhook : WebhookConfig :=
  { id := "w1", isActive := true,
    retryConfig :=
      { maxRetries := 3, backoffStrategy := BackoffStrategy.exponential,
        baseDelay := 1000, maxDelay := 60000 } }

/-- Fresh delivery for cexWebhook, first attempt pending. -/
def cexDelivery0 : WebhookDeliveryAttempt :=
  { id := "d1", webhookId := "w1", attempt := 1, timestamp := 0,
    status := DeliveryStatus.pending, nextRetryAt := none }

/-- State of the delivery after one failed HTTP attempt. -/
def cexDelivery1 : WebhookDeliveryAttempt :=
  attemptDelivery [("w1", cexWebhook)] false 0 0 cexDelivery0

/-- State of the delivery after two failed HTTP attempts. -/
def cexDelivery2 : WebhookDeliveryAttempt :=
  attemptDelivery [("w1", cexWebhook)] false 0 0 cexDelivery1

/-- State of the delivery after three failed HTTP attempts. -/
def cexDelivery3 : WebhookDeliveryAttempt :=
  attemptDelivery [("w1", cexWebhook)] false 0 0 cexDelivery2

/-- Retry configuration whose cap equals its base delay, exhibiting the
post-cap jitter overshoot. -/
def cexRetryConfig : RetryConfig :=
  { maxRetries := 3, backoffStrategy := BackoffStrategy.exponential,
    baseDelay := 1000, maxDelay := 1000 }

end Webhook

namespace PG

open GeoUtil

/-- Point from PolygonGeofence.ts (coordinates in degrees). -/
structure Point : Type where
  latitude : ℚ
  longitude : ℚ
  deriving DecidableEq, Repr

/-- An HH:MM time string, kept as its two numeric components; the code
parses such strings with timeToMinutes. -/
structure TimeHM : Type where
  hours : ℕ
  minutes : ℕ
  deriving DecidableEq, Repr

/-- PolygonGeofenceManager.timeToMinutes. -/
def timeToMinutes (t : TimeHM) : ℕ := t.hours * 60 + t.minutes

/-- TimeBasedRule from PolygonGeofence.ts (the optional timezone field
is never read by the evaluation code). -/
structure TimeBasedRule : Type where
  id : String
  startTime : TimeHM
  endTime : TimeHM
  daysOfWeek : List ℕ
  isActive : Bool
  deriving DecidableEq, Repr

/-- ConditionalRule from PolygonGeofence.ts, restricted to the fields
read by areConditionalRulesActive (condition, operator and value are
never consulted by the stubbed evaluator). -/
structure ConditionalRule : Type where
  id : String
  isActive : Bool
  deriving DecidableEq, Repr

/-- Shape discriminator of an AdvancedGeofenceRegion. -/
inductive GeofenceType : Type
  | circle
  | polygon
  deriving DecidableEq, Repr

/-- The derived axis-aligned bounding box; real-valued because the
circle branch divides by a cosine. -/
structure BoundingBox : Type where
  minLat : ℝ
  maxLat : ℝ
  minLng : ℝ
  maxLng : ℝ

/-- GeofenceHierarchy from PolygonGeofence.ts. -/
structure GeofenceHierarchy : Type where
  id : String
  parentId : Option String
  children : List String
  inheritSettings : Bool
  deriving DecidableEq, Repr

/-- AdvancedGeofenceRegion from PolygonGeofence.ts.  The field wasInside
models the metadata.wasInside slot, the only metadata key the manager
reads or writes; a missing metadata object and a missing key both read
as false.  timeRules and conditionalRules model the optional arrays,
with the absent case identified with the empty array (the code guards
every use with a length check that treats the two alike). -/
structure AdvancedGeofenceRegion : Type where
  id : String
  vertices : List Point
  notifyOnEntry : Bool
  notifyOnExit : Bool
  wasInside : Option Bool
  type : GeofenceType
  center : Option Point
  radius : Option ℚ
  timeRules : List TimeBasedRule
  conditionalRules : List ConditionalRule
  hierarchy : Option GeofenceHierarchy
  boundingBox : Option BoundingBox

/-- State of a PolygonGeofenceManager instance: the three Maps of the
class, as association lists.  Grid cell keys are the (latGrid, lngGrid)
integer pairs behind the `${latGrid},${lngGrid}` strings of the code
(the string rendering of such pairs is injective). -/
structure PGState : Type where
  geofences : List (String × AdvancedGeofenceRegion)
  spatialIndex : List ((ℤ × ℤ) × List String)
  hierarchies : List (String × GeofenceHierarchy)

/-- Grid size for spatial indexing, in degrees. -/
def GRID_SIZE : ℚ := 0.01

/-- PolygonGeofenceManager.toRadians. -/
noncomputable def toRadians (degrees : ℝ) : ℝ := degrees * (Real.pi / 180)

/-- JavaScript Math.atan2 on real arguments. -/
noncomputable def atan2 (y x : ℝ) : ℝ :=
  if 0 < x then Real.arctan (y / x)
  else if x < 0 then
    (if 0 ≤ y then Real.arctan (y / x) + Real.pi else Real.arctan (y / x) - Real.pi)
  else if 0 < y then Real.pi / 2
  else if y < 0 then -(Real.pi / 2)
  else 0

/-- PolygonGeofenceManager.calculateDistance: the haversine formula with
Earth radius 6371000 m. -/
noncomputable def calculateDistance (lat1 lon1 lat2 lon2 : ℚ) : ℝ :=
  let dLat := toRadians (((lat2 - lat1 : ℚ)) : ℝ)
  let dLon := toRadians (((lon2 - lon1 : ℚ)) : ℝ)
  let a := Real.sin (dLat / 2) * Real.sin (dLat / 2) +
    Real.cos (toRadians ((lat1 : ℚ) : ℝ)) * Real.cos (toRadians ((lat2 : ℚ) : ℝ)) *
      Real.sin (dLon / 2) * Real.sin (dLon / 2)
  let c := 2 * atan2 (Real.sqrt a) (Real.sqrt (1 - a))
  6371000 * c

/-- PolygonGeofenceManager.isPointInCircle.  The JavaScript truthiness
guard rejects a missing center, a missing radius and a zero radius. -/
noncomputable def isPointInCircle (p : Point) (g : AdvancedGeofenceRegion) : Bool :=
  match g.center, g.radius with
  | some c, some r =>
    if r = 0 then false
    else decide (calculateDistance p.latitude p.longitude c.latitude c.longitude ≤ (r : ℝ))
  | _, _ => false

/-- One edge test of the ray-casting loop: toggle when the horizontal
ray from (x, y) crosses the edge from vj to vi. -/
def rayCastStep (x y : ℚ) (inside : Bool) (vv : Point × Point) : Bool :=
  if ((vv.1.latitude > y) ≠ (vv.2.latitude > y)) ∧
      x < (vv.2.longitude - vv.1.longitude) * (y - vv.1.latitude) /
        (vv.2.latitude - vv.1.latitude) + vv.1.longitude
  then !inside else inside

/-- PolygonGeofenceManager.isPointInPolygon: ray casting over the closed
vertex loop; the loop index pairs (i, j) with j the cyclic predecessor
of i are rendered by zipping the vertex list with its right rotation. -/
def isPointInPolygon (p : Point) (vertices : List Point) : Bool :=
  if vertices.length < 3 then false
  else
    (vertices.zip (vertices.rotate (vertices.length - 1))).foldl
      (rayCastStep p.longitude p.latitude) false

/-- PolygonGeofenceManager.isPointInside: dispatch on the shape type. -/
noncomputable def isPointInside (p : Point) (g : AdvancedGeofenceRegion) : Bool :=
  if g.type = GeofenceType.circle then isPointInCircle p g
  else isPointInPolygon p g.vertices

/-- PolygonGeofenceManager.getGridCell. -/
def getGridCell (lat lng : ℚ) : ℤ × ℤ := (⌊lat / GRID_SIZE⌋, ⌊lng / GRID_SIZE⌋)

/-- Consecutive integers from a to b inclusive. -/
def intRange (a b : ℤ) : List ℤ :=
  (List.range (b + 1 - a).toNat).map (fun n : ℕ => a + (n : ℤ))

/-- PolygonGeofenceManager.getGridCells: every grid cell the bounding
box spans (latitude loop outside, longitude loop inside). -/
noncomputable def getGridCells (bb : BoundingBox) : List (ℤ × ℤ) :=
  let minLatGrid := ⌊bb.minLat / ((GRID_SIZE : ℚ) : ℝ)⌋
  let maxLatGrid := ⌊bb.maxLat / ((GRID_SIZE : ℚ) : ℝ)⌋
  let minLngGrid := ⌊bb.minLng / ((GRID_SIZE : ℚ) : ℝ)⌋
  let maxLngGrid := ⌊bb.maxLng / ((GRID_SIZE : ℚ) : ℝ)⌋
  (intRange minLatGrid maxLatGrid).flatMap
    (fun la => (intRange minLngGrid maxLngGrid).map (fun ln => (la, ln)))

/-- PolygonGeofenceManager.getAdjacentCells: the 8 neighbors of a cell. -/
def getAdjacentCells (cell : ℤ × ℤ) : List (ℤ × ℤ) :=
  ((([-1, 0, 1] : List ℤ).flatMap (fun dLat => ([-1, 0, 1] : List ℤ).map (fun dLng => (dLat, dLng)))).filter
    (fun d => !(d.1 = 0 ∧ d.2 = 0 : Bool))).map (fun d => (cell.1 + d.1, cell.2 + d.2))

/-- JavaScript Set.add on an insertion-ordered duplicate-free list. -/
def setAdd (l : List String) (id : String) : List String :=
  if id ∈ l then l else l ++ [id]

/-- PolygonGeofenceManager.addToSpatialIndex. -/
noncomputable def addToSpatialIndex (st : PGState) (g : AdvancedGeofenceRegion) : PGState :=
  match g.boundingBox with
  | none => st
  | some bb =>
    { st with
      spatialIndex :=
        (getGridCells bb).foldl
          (fun idx cell => mapSet idx cell (setAdd ((mapGet idx cell).getD []) g.id))
          st.spatialIndex }

/-- Removal of an entry from each Map bucket, deleting emptied buckets
(JavaScript Map.delete). -/
def mapDelete {κ α : Type} [DecidableEq κ] (m : List (κ × α)) (k : κ) : List (κ × α) :=
  m.filter (fun e => !(decide (e.1 = k)))

/-- PolygonGeofenceManager.removeFromSpatialIndex. -/
noncomputable def removeFromSpatialIndex (st : PGState) (g : AdvancedGeofenceRegion) : PGState :=
  match g.boundingBox with
  | none => st
  | some bb =>
    { st with
      spatialIndex :=
        (getGridCells bb).foldl
          (fun idx cell =>
            match mapGet idx cell with
            | none => idx
            | some bucket =>
              let bucket2 := bucket.filter (fun i => !(decide (i = g.id)))
              if bucket2.isEmpty then mapDelete idx cell else mapSet idx cell bucket2)
          st.spatialIndex }

/-- PolygonGeofenceManager.getCandidateGeofences, id-collection phase:
the bucket of the own cell, then the buckets of the 8 adjacent cells,
unioned with Set semantics.  In the code the returned Set aliases the
stored bucket (candidateIds.add mutates it); the claims under proof
only concern which ids the union contains, which matches this pure
rendering. -/
def getCandidateIds (st : PGState) (p : Point) : List String :=
  let cellKey := getGridCell p.latitude p.longitude
  let own := (mapGet st.spatialIndex cellKey).getD []
  (getAdjacentCells cellKey).foldl
    (fun acc cell => ((mapGet st.spatialIndex cell).getD []).foldl setAdd acc) own

/-- PolygonGeofenceManager.getCandidateGeofences, region-lookup phase. -/
def getCandidateGeofences (st : PGState) (p : Point) : List AdvancedGeofenceRegion :=
  (getCandidateIds st p).filterMap (fun id => mapGet st.geofences id)

/-- Day of week of an epoch-milliseconds timestamp (UTC; the epoch fell
on a Thursday, day 4).  The code reads the local-time fields of a
JavaScript Date; the model fixes the reference frame to UTC. -/
def jsDayOfWeek (ts : ℤ) : ℕ := ((Int.fdiv ts 86400000 + 4).emod 7).toNat

/-- Minute of day of an epoch-milliseconds timestamp (UTC), as produced
by composing the HH:MM time string of the code with timeToMinutes. -/
def currentMinutes (ts : ℤ) : ℕ :=
  ((Int.fdiv ts 3600000).emod 24).toNat * 60 + ((Int.fdiv ts 60000).emod 60).toNat

/-- PolygonGeofenceManager.isTimeInRange, on minute counts (the code
parses its three HH:MM strings with timeToMinutes first). -/
def isTimeInRange (timeMinutes startMinutes endMinutes : ℕ) : Bool :=
  if startMinutes ≤ endMinutes then
    decide (timeMinutes ≥ startMinutes) && decide (timeMinutes ≤ endMinutes)
  else
    decide (timeMinutes ≥ startMinutes) || decide (timeMinutes ≤ endMinutes)

/-- PolygonGeofenceManager.isTimeRuleActive. -/
def isTimeRuleActive (g : AdvancedGeofenceRegion) (ts : ℤ) : Bool :=
  if g.timeRules.isEmpty then true
  else
    g.timeRules.any (fun rule =>
      rule.isActive && decide (jsDayOfWeek ts ∈ rule.daysOfWeek)
        && isTimeInRange (currentMinutes ts) (timeToMinutes rule.startTime)
            (timeToMinutes rule.endTime))

/-- PolygonGeofenceManager.areConditionalRulesActive (the stub only
checks the isActive flags). -/
def areConditionalRulesActive (g : AdvancedGeofenceRegion) : Bool :=
  if g.conditionalRules.isEmpty then true
  else g.conditionalRules.all (fun rule => rule.isActive)

/-- Result record of checkLocation. -/
structure CheckResult : Type where
  entered : List AdvancedGeofenceRegion
  exited : List AdvancedGeofenceRegion
  inside : List AdvancedGeofenceRegion

/-- One iteration of the checkLocation loop over a candidate id: skip
when a gate fails, otherwise classify and store the new wasInside.  The
in-place mutation of the region object (geofence.metadata = {...}) is
rendered as a map update at the candidate id, the key under which the
loop obtained the object. -/
noncomputable def checkStep (p : Point) (ts : ℤ) (acc : PGState × CheckResult) (id : String) :
    PGState × CheckResult :=
  match mapGet acc.1.geofences id with
  | none => acc
  | some g =>
    if !(isTimeRuleActive g ts) then acc
    else if !(areConditionalRulesActive g) then acc
    else
      let isIn := isPointInside p g
      let was := g.wasInside.getD false
      let res :=
        if isIn then
          { acc.2 with
            inside := acc.2.inside ++ [g]
            entered := if !was && g.notifyOnEntry then acc.2.entered ++ [g] else acc.2.entered }
        else if was && g.notifyOnExit then { acc.2 with exited := acc.2.exited ++ [g] }
        else acc.2
      ({ acc.1 with geofences := mapSet acc.1.geofences id { g with wasInside := some isIn } },
        res)

/-- PolygonGeofenceManager.checkLocation. -/
noncomputable def checkLocation (st : PGState) (p : Point) (ts : ℤ) : PGState × CheckResult :=
  (getCandidateIds st p).foldl (checkStep p ts) (st, ⟨[], [], []⟩)

/-- Math.min over a spread vertex-coordinate array.  JavaScript returns
Infinity on an empty array; the region constructors under verification
only reach this through polygons, whose vertex lists are nonempty, so
the empty case is given an arbitrary value. -/
def jsMinList (l : List ℚ) : ℚ :=
  match l with
  | [] => 0
  | x :: xs => xs.foldl min x

/-- Math.max over a spread vertex-coordinate array (see jsMinList). -/
def jsMaxList (l : List ℚ) : ℚ :=
  match l with
  | [] => 0
  | x :: xs => xs.foldl max x

/-- The polygon branch of calculateBoundingBox. -/
def polygonBoundingBox (vertices : List Point) : BoundingBox :=
  { minLat := ((jsMinList (vertices.map Point.latitude) : ℚ) : ℝ)
    maxLat := ((jsMaxList (vertices.map Point.latitude) : ℚ) : ℝ)
    minLng := ((jsMinList (vertices.map Point.longitude) : ℚ) : ℝ)
    maxLng := ((jsMaxList (vertices.map Point.longitude) : ℚ) : ℝ) }

/-- PolygonGeofenceManager.calculateBoundingBox.  The circle branch is
taken when type is circle and center and radius are truthy (a zero
radius is falsy and falls through to the polygon branch). -/
noncomputable def calculateBoundingBox (g : AdvancedGeofenceRegion) : BoundingBox :=
  match g.type, g.center, g.radius with
  | GeofenceType.circle, some c, some r =>
    if r = 0 then polygonBoundingBox g.vertices
    else
      let latOffset : ℝ := ((r : ℚ) : ℝ) / 111000
      let lngOffset : ℝ := latOffset / Real.cos (toRadians ((c.latitude : ℚ) : ℝ))
      { minLat := ((c.latitude : ℚ) : ℝ) - latOffset
        maxLat := ((c.latitude : ℚ) : ℝ) + latOffset
        minLng := ((c.longitude : ℚ) : ℝ) - lngOffset
        maxLng := ((c.longitude : ℚ) : ℝ) + lngOffset }
  | _, _, _ => polygonBoundingBox g.vertices

/-- PolygonGeofenceManager.updateHierarchyReferences. -/
def updateHierarchyReferences (st : PGState) (h : GeofenceHierarchy) : PGState :=
  let st1 := { st with hierarchies := mapSet st.hierarchies h.id h }
  match h.parentId with
  | none => st1
  | some pid =>
    match mapGet st1.hierarchies pid with
    | none => st1
    | some parent =>
      if h.id ∈ parent.children then st1
      else
        { st1 with
          hierarchies :=
            mapSet st1.hierarchies pid { parent with children := parent.children ++ [h.id] } }

/-- PolygonGeofenceManager.addGeofence.  The argument omits the derived
boundingBox (Omit in the source); the model overwrites that field.
There is no validation: the id is written into the Map unconditionally
and the id is returned. -/
noncomputable def addGeofence (st : PGState) (region : AdvancedGeofenceRegion) :
    PGState × String :=
  let g := { region with boundingBox := some (calculateBoundingBox region) }
  let st1 := { st with geofences := mapSet st.geofences region.id g }
  let st2 := addToSpatialIndex st1 g
  let st3 :=
    match g.hierarchy with
    | none => st2
    | some h =>
      updateHierarchyReferences { st2 with hierarchies := mapSet st2.hierarchies region.id h } h
  (st3, region.id)

/-- The key of every geofence Map entry matches the id of its region, as
every write through addGeofence and checkLocation maintains. -/
def wellKeyed (m : List (String × AdvancedGeofenceRegion)) : Bool :=
  m.all (fun e => decide (e.2.id = e.1))

/-- Rendering of the specification notion of descendant: walking parent
pointers from x for at most fuel steps reaches target.  Stated over the
hierarchy ledger to express the forest invariant the specification
requires of it. -/
def specParentChainReaches (m : List (String × GeofenceHierarchy)) :
    ℕ → String → String → Bool
  | 0, _, _ => false
  | fuel + 1, x, target =>
    match mapGet m x with
    | none => false
    | some h =>
      match h.parentId with
      | none => false
      | some p => decide (p = target) || specParentChainReaches m fuel p target

/-- Rendering of the specification forest invariant: some node is a
proper ancestor of itself through parent pointers. -/
def specHierarchyHasParentCycle (m : List (String × GeofenceHierarchy)) : Bool :=
  m.any (fun e => specParentChainReaches m m.length e.1 e.1)

/-- The manager state with no regions. -/
def emptyState : PGState := { geofences := [], spatialIndex := [], hierarchies := [] }

/-- A polygon region input without optional features. -/
def plainPolygonRegion (id : String) (vertices : List Point) : AdvancedGeofenceRegion :=
  { id := id, vertices := vertices, notifyOnEntry := true, notifyOnExit := true,
    wasInside := none, type := GeofenceType.polygon, center := none, radius := none,
    timeRules := [], conditionalRules := [], hierarchy := none, boundingBox := none }

/-- First region added under the id dup. -/
def dupRegionA : AdvancedGeofenceRegion :=
  plainPolygonRegion "dup" [⟨0, 0⟩, ⟨0, 1⟩, ⟨1, 0⟩]

/-- Second region added under the same id dup, with a different shape. -/
def dupRegionB : AdvancedGeofenceRegion :=
  plainPolygonRegion "dup" [⟨2, 2⟩, ⟨2, 3⟩, ⟨3, 2⟩]

/-- State after adding dupRegionA to the empty manager. -/
noncomputable def dupState1 : PGState := (addGeofence emptyState dupRegionA).1

/-- State after adding dupRegionB on top of dupState1 (same id). -/
noncomputable def dupState2 : PGState := (addGeofence dupState1 dupRegionB).1

/-- Hierarchy record naming b as the parent of a. -/
def hierA : GeofenceHierarchy :=
  { id := "a", parentId := some "b", children := [], inheritSettings := false }

/-- Hierarchy record naming a as the parent of b. -/
def hierB : GeofenceHierarchy :=
  { id := "b", parentId := some "a", children := [], inheritSettings := false }

/-- Region a carrying hierA. -/
def regionHA : AdvancedGeofenceRegion :=
  { plainPolygonRegion "a" [⟨0, 0⟩, ⟨0, 1⟩, ⟨1, 0⟩] with hierarchy := some hierA }

/-- Region b carrying hierB. -/
def regionHB : AdvancedGeofenceRegion :=
  { plainPolygonRegion "b" [⟨0, 0⟩, ⟨0, 1⟩, ⟨1, 0⟩] with hierarchy := some hierB }

/-- State after adding regionHA and then regionHB: the two hierarchy
records point at each other. -/
noncomputable def cycleState : PGState :=
  (addGeofence (addGeofence emptyState regionHA).1 regionHB).1

/-- The 10-degree square of the testable-properties section. -/
def wSquare : List Point := [⟨0, 0⟩, ⟨0, 10⟩, ⟨10, 10⟩, ⟨10, 0⟩]

/-- A point interior to wSquare. -/
def wPoint : Point := ⟨5, 5⟩

/-- Region used by the C1 witness: wSquare with stored state Inside. -/
def wRegion : AdvancedGeofenceRegion :=
  { plainPolygonRegion "w" wSquare with wasInside := some true }

/-- Manager state holding wRegion, indexed at the cell of wPoint. -/
def wIndexState : PGState :=
  { geofences := [("w", wRegion)], spatialIndex := [((500, 500), ["w"])], hierarchies := [] }

/-- Time rule active on Fridays only (day 5), all day. -/
def wRule : TimeBasedRule :=
  { id := "t", startTime := ⟨0, 0⟩, endTime := ⟨23, 59⟩, daysOfWeek := [5], isActive := true }

/-- Region used by the C2 witness: wSquare, stored state Inside, gated
by wRule. -/
def w2Region : AdvancedGeofenceRegion :=
  { plainPolygonRegion "w2" wSquare with wasInside := some true, timeRules := [wRule] }

/-- Manager state holding w2Region, indexed at the cell of wPoint. -/
def w2State : PGState :=
  { geofences := [("w2", w2Region)], spatialIndex := [((500, 500), ["w2"])], hierarchies := [] }

/-- A region that has been added to the manager and not removed: it is
stored in the geofence Map under its id, carries the bounding box the
manager derives on insertion, and its id sits in the spatial-index
bucket of every grid cell of that bounding box.  This is the state
addGeofence establishes and that remains until removal. -/
def AddedAndIndexed (st : PGState) (g : AdvancedGeofenceRegion) : Prop :=
  mapGet st.geofences g.id = some g
    ∧ g.boundingBox = some (calculateBoundingBox g)
    ∧ ∀ c ∈ getGridCells (calculateBoundingBox g),
        g.id ∈ (mapGet st.spatialIndex c).getD []

/-- Input of the C3 counterexample: a circle of radius 14000 km at the
origin, as passed to addGeofence. -/
def bigRegionIn : AdvancedGeofenceRegion :=
  { plainPolygonRegion "big" [] with
    type := GeofenceType.circle
    center := some ⟨0, 0⟩
    radius := some 14000000 }

/-- The stored form of bigRegionIn, carrying its derived bounding box. -/
noncomputable def bigRegion : AdvancedGeofenceRegion :=
  { bigRegionIn with boundingBox := some (calculateBoundingBox bigRegionIn) }

/-- Manager state after adding bigRegionIn to the empty manager. -/
noncomputable def bigState : PGState := (addGeofence emptyState bigRegionIn).1

/-- A point inside the 14000 km circle (great-circle distance about
13899 km) but far outside its bounding box in grid space. -/
def farPoint : Point := ⟨85, 179⟩

/-- Vertex loop of the C3 witness: a square of side 0.005 degrees. -/
def smallSquare : List Point := [⟨0, 0⟩, ⟨0, 1 / 200⟩, ⟨1 / 200, 1 / 200⟩, ⟨1 / 200, 0⟩]

/-- The C3 witness polygon as passed to addGeofence. -/
def smallRegionIn : AdvancedGeofenceRegion := plainPolygonRegion "s" smallSquare

/-- The stored form of smallRegionIn, carrying its derived bounding box. -/
noncomputable def smallRegion : AdvancedGeofenceRegion :=
  { smallRegionIn with boundingBox := some (calculateBoundingBox smallRegionIn) }

/-- Manager state holding smallRegion, indexed at its single grid cell. -/
noncomputable def smallState : PGState :=
  { geofences := [("s", smallRegion)], spatialIndex := [((0, 0), ["s"])], hierarchies := [] }

/-- A point interior to smallSquare. -/
def smallPoint : Point := ⟨1 / 400, 1 / 400⟩

end PG

/- ===================== Theorems ===================== -/

namespace GeoUtil

theorem mapGet_map_replace_self {κ α : Type} [DecidableEq κ] (m : List (κ × α)) (k : κ) (v : α)
    (h : m.any (fun e => decide (e.1 = k)) = true) :
    mapGet (m.map (fun e => if e.1 = k then (k, v) else e)) k = some v := by
  induction m with
  | nil => simp at h
  | cons e es ih =>
    by_cases he : e.1 = k
    · simp [mapGet, he]
    · simp only [List.any_cons, Bool.or_eq_true, decide_eq_true_eq] at h
      simp [mapGet, he, ih (h.resolve_left he)]

theorem mapGet_append_single_self {κ α : Type} [DecidableEq κ] (m : List (κ × α)) (k : κ) (v : α)
    (h : m.any (fun e => decide (e.1 = k)) = false) :
    mapGet (m ++ [(k, v)]) k = some v := by
  induction m with
  | nil => simp [mapGet]
  | cons e es ih =>
    simp only [List.any_cons, Bool.or_eq_false_iff, decide_eq_false_iff_not] at h
    simp only [List.cons_append, mapGet, if_neg h.1]
    exact ih (by simpa using h.2)

theorem mapGet_mapSet_self {κ α : Type} [DecidableEq κ] (m : List (κ × α)) (k : κ) (v : α) :
    mapGet (mapSet m k v) k = some v := by
  unfold mapSet
  by_cases h : m.any (fun e => decide (e.1 = k)) = true
  · rw [if_pos h]; exact mapGet_map_replace_self m k v h
  · rw [if_neg h]
    have h' : m.any (fun e => decide (e.1 = k)) = false := by
      cases hm : m.any (fun e => decide (e.1 = k)) with
      | true => exact absurd hm h
      | false => rfl
    exact mapGet_append_single_self m k v h'

theorem mapGet_mapSet_ne {κ α : Type} [DecidableEq κ] (m : List (κ × α)) (k k' : κ) (v : α)
    (hne : k' ≠ k) : mapGet (mapSet m k v) k' = mapGet m k' := by
  unfold mapSet
  by_cases h : m.any (fun e => decide (e.1 = k)) = true
  · rw [if_pos h]
    clear h
    induction m with
    | nil => rfl
    | cons e es ih =>
      by_cases he : e.1 = k
      · have h1 : ¬ ((k, v).1 = k') := fun hk => hne hk.symm
        have h2 : ¬ (e.1 = k') := fun hk => hne (he ▸ hk).symm
        simp only [List.map_cons, if_pos he, mapGet, if_neg h1, if_neg h2]
        exact ih
      · simp only [List.map_cons, if_neg he, mapGet]
        by_cases hd : e.1 = k'
        · simp [hd]
        · simp only [if_neg hd]
          exact ih
  · rw [if_neg h]
    clear h
    induction m with
    | nil =>
      simp only [List.nil_append, mapGet]
      rw [if_neg (fun hk : k = k' => hne hk.symm)]
    | cons e es ih =>
      simp only [List.cons_append, mapGet]
      by_cases hd : e.1 = k'
      · simp [hd]
      · simp only [if_neg hd]
        exact ih

theorem mapGet_mem {κ α : Type} [DecidableEq κ] (m : List (κ × α)) (k : κ) (v : α)
    (h : mapGet m k = some v) : (k, v) ∈ m := by
  induction m with
  | nil => simp [mapGet] at h
  | cons e es ih =>
    rcases e with ⟨a, b⟩
    by_cases he : a = k
    · simp only [mapGet, if_pos he] at h
      injection h with h
      subst he
      subst h
      exact List.mem_cons_self _ _
    · simp only [mapGet, if_neg he] at h
      exact List.mem_cons_of_mem _ (ih h)

end GeoUtil

namespace Offline

open GeoUtil

theorem jsRound_int (n : ℤ) : jsRound (n : ℚ) = n := by
  unfold jsRound
  rw [Int.floor_eq_iff]
  constructor
  · linarith [(le_refl (n : ℚ))]
  · have : ((n + 1 : ℤ) : ℚ) = (n : ℚ) + 1 := by push_cast; ring
    linarith [this]

theorem round_sixDecimals (q : ℚ) (h : hasAtMostSixDecimals q) :
    (jsRound (q * 1000000) : ℚ) / 1000000 = q := by
  obtain ⟨n, hn⟩ := h
  rw [hn, jsRound_int]
  rw [div_eq_iff (by norm_num : (1000000 : ℚ) ≠ 0)]
  linarith [hn]

theorem chunksGo_eq_of_le {α : Type} {n : ℕ} (hn : 0 < n) :
    ∀ (f1 : ℕ) (f2 : ℕ) (l : List α), l.length ≤ f1 → l.length ≤ f2 →
      chunksGo n f1 l = chunksGo n f2 l := by
  intro f1
  induction f1 with
  | zero =>
    intro f2 l h1 _
    have : l = [] := List.eq_nil_of_length_eq_zero (Nat.le_zero.mp h1)
    subst this
    cases f2 <;> rfl
  | succ f1 ih =>
    intro f2 l h1 h2
    cases l with
    | nil => cases f2 <;> rfl
    | cons x xs =>
      cases f2 with
      | zero => simp at h2
      | succ f2 =>
        show ((x :: xs).take n) :: chunksGo n f1 ((x :: xs).drop n) =
          ((x :: xs).take n) :: chunksGo n f2 ((x :: xs).drop n)
        simp only [List.length_cons] at h1 h2
        have hd : ((x :: xs).drop n).length ≤ f1 := by
          rw [List.length_drop, List.length_cons]
          omega
        have hd2 : ((x :: xs).drop n).length ≤ f2 := by
          rw [List.length_drop, List.length_cons]
          omega
        rw [ih f2 _ hd hd2]

theorem batchEvents_cons {n : ℕ} (hn : 0 < n) (u : List OfflineEvent) (hu : u ≠ []) :
    batchEvents u n = u.take n :: batchEvents (u.drop n) n := by
  cases u with
  | nil => exact absurd rfl hu
  | cons x xs =>
    show chunksGo n (x :: xs).length (x :: xs) = _
    rw [show (x :: xs).length = xs.length + 1 from rfl]
    show ((x :: xs).take n) :: chunksGo n xs.length ((x :: xs).drop n) = _
    congr 1
    apply chunksGo_eq_of_le hn
    · rw [List.length_drop]
      simp only [List.length_cons]
      omega
    · exact le_refl _

theorem batchEvents_flatten {n : ℕ} (hn : 0 < n) :
    ∀ (m : ℕ) (u : List OfflineEvent), u.length ≤ m → (batchEvents u n).flatten = u := by
  intro m
  induction m with
  | zero =>
    intro u h
    have : u = [] := List.eq_nil_of_length_eq_zero (Nat.le_zero.mp h)
    subst this
    rfl
  | succ m ih =>
    intro u h
    by_cases hu : u = []
    · subst hu; rfl
    · rw [batchEvents_cons hn u hu, List.flatten_cons]
      rw [ih (u.drop n) ?hlen]
      · exact List.take_append_drop n u
      case hlen =>
        rw [List.length_drop]
        have : 0 < u.length := List.length_pos.mpr hu
        omega

theorem mem_batchEvents_sublist {n : ℕ} (hn : 0 < n) (u : List OfflineEvent)
    (b : List OfflineEvent) (hb : b ∈ batchEvents u n) :
    ∀ e ∈ b, e ∈ u := by
  intro e he
  have : e ∈ (batchEvents u n).flatten := List.mem_flatten.mpr ⟨b, hb, he⟩
  rwa [batchEvents_flatten hn u.length u (le_refl _)] at this

theorem markWith_append (n : ℕ) (ok : ℕ → Bool) :
    ∀ (a b : List OfflineEvent) (k : ℕ),
      markWith n ok k (a ++ b) =
        markWith n ok k a ++ markWith n ok (k + (a.filter (fun e => !e.synced)).length) b := by
  intro a
  induction a with
  | nil => intro b k; simp [markWith]
  | cons e es ih =>
    intro b k
    by_cases hs : e.synced
    · have h1 : markWith n ok k ((e :: es) ++ b) = e :: markWith n ok k (es ++ b) := by
        simp [markWith, hs]
      have h2 : markWith n ok k (e :: es) = e :: markWith n ok k es := by
        simp [markWith, hs]
      have h3 : (e :: es).filter (fun x => !x.synced) = es.filter (fun x => !x.synced) := by
        simp [hs]
      rw [h1, h2, h3, ih, List.cons_append]
    · have h1 : markWith n ok k ((e :: es) ++ b)
          = { e with synced := ok (k / n) } :: markWith n ok (k + 1) (es ++ b) := by
        simp [markWith, hs]
      have h2 : markWith n ok k (e :: es)
          = { e with synced := ok (k / n) } :: markWith n ok (k + 1) es := by
        simp [markWith, hs]
      have h3 : ((e :: es).filter (fun x => !x.synced)).length
          = (es.filter (fun x => !x.synced)).length + 1 := by
        simp [hs]
      have hidx : k + 1 + (es.filter (fun x => !x.synced)).length
          = k + ((es.filter (fun x => !x.synced)).length + 1) := by omega
      rw [h1, h2, h3, ih, hidx, List.cons_append]

theorem markWith_shift (n : ℕ) (ok : ℕ → Bool) (hn : 0 < n) :
    ∀ (l : List OfflineEvent) (k : ℕ),
      markWith n ok (n + k) l = markWith n (fun i => ok (i + 1)) k l := by
  intro l
  induction l with
  | nil => intro k; rfl
  | cons e es ih =>
    intro k
    by_cases hs : e.synced
    · have h1 : markWith n ok (n + k) (e :: es) = e :: markWith n ok (n + k) es := by
        simp [markWith, hs]
      have h2 : markWith n (fun i => ok (i + 1)) k (e :: es)
          = e :: markWith n (fun i => ok (i + 1)) k es := by
        simp [markWith, hs]
      rw [h1, h2, ih]
    · have hdiv : (n + k) / n = k / n + 1 := by
        rw [Nat.add_comm n k]; exact Nat.add_div_right k hn
      have h1 : markWith n ok (n + k) (e :: es)
          = { e with synced := ok (k / n + 1) } :: markWith n ok (n + k + 1) es := by
        simp [markWith, hs, hdiv]
      have h2 : markWith n (fun i => ok (i + 1)) k (e :: es)
          = { e with synced := ok (k / n + 1) } :: markWith n (fun i => ok (i + 1)) (k + 1) es := by
        simp [markWith, hs]
      rw [h1, h2, show n + k + 1 = n + (k + 1) by omega, ih]

theorem markWith_const (n : ℕ) (ok : ℕ → Bool) :
    ∀ (a : List OfflineEvent) (j : ℕ), (∀ e ∈ a, e.synced = false) → a.length + j ≤ n →
      markWith n ok j a = a.map (fun e => { e with synced := ok 0 }) := by
  intro a
  induction a with
  | nil => intro j _ _; rfl
  | cons e es ih =>
    intro j hall hlen
    have hs : e.synced = false := hall e (List.mem_cons_self _ _)
    simp only [markWith, hs, Bool.false_eq_true, if_false, List.map_cons]
    have hj : j < n := by
      simp only [List.length_cons] at hlen
      omega
    rw [Nat.div_eq_of_lt hj]
    congr 1
    apply ih
    · intro x hx; exact hall x (List.mem_cons_of_mem _ hx)
    · simp only [List.length_cons] at hlen
      omega

theorem markWith_filter_comm (n : ℕ) (ok : ℕ → Bool) :
    ∀ (l : List OfflineEvent) (k : ℕ),
      (markWith n ok k l).filter (fun e => !e.synced) =
        (markWith n ok k (l.filter (fun e => !e.synced))).filter (fun e => !e.synced) := by
  intro l
  induction l with
  | nil => intro k; rfl
  | cons e es ih =>
    intro k
    by_cases hs : e.synced
    · have h1 : markWith n ok k (e :: es) = e :: markWith n ok k es := by
        simp [markWith, hs]
      have h2 : (e :: es).filter (fun x => !x.synced) = es.filter (fun x => !x.synced) := by
        simp [hs]
      have h3 : (e :: markWith n ok k es).filter (fun x => !x.synced)
          = (markWith n ok k es).filter (fun x => !x.synced) := by
        simp [hs]
      rw [h1, h2, h3]
      exact ih k
    · have h1 : markWith n ok k (e :: es)
          = { e with synced := ok (k / n) } :: markWith n ok (k + 1) es := by
        simp [markWith, hs]
      have h2 : (e :: es).filter (fun x => !x.synced) = e :: es.filter (fun x => !x.synced) := by
        simp [hs]
      have h3 : markWith n ok k (e :: es.filter (fun x => !x.synced))
          = { e with synced := ok (k / n) }
              :: markWith n ok (k + 1) (es.filter (fun x => !x.synced)) := by
        simp [markWith, hs]
      rw [h1, h2, h3]
      by_cases hok : ok (k / n)
      · simp only [List.filter_cons, hok]
        simp only [Bool.not_true]
        simp only [Bool.false_eq_true, if_false]
        exact ih (k + 1)
      · have hokf : ok (k / n) = false := by
          cases hv : ok (k / n) with
          | true => exact absurd hv hok
          | false => rfl
        simp only [List.filter_cons, hokf]
        simp only [Bool.not_false, if_true]
        exact congrArg _ (ih (k + 1))

theorem offlineEvent_eta_synced_false (e : OfflineEvent) (h : e.synced = false) :
    { e with synced := false } = e := by
  cases e
  simp only at h
  simp [h]

theorem map_synced_false_id (a : List OfflineEvent) (h : ∀ e ∈ a, e.synced = false) :
    a.map (fun e => { e with synced := false }) = a := by
  induction a with
  | nil => rfl
  | cons e es ih =>
    simp only [List.map_cons]
    rw [offlineEvent_eta_synced_false e (h e (List.mem_cons_self _ _))]
    rw [ih (fun x hx => h x (List.mem_cons_of_mem _ hx))]

theorem filter_map_synced_true (a : List OfflineEvent) :
    (a.map (fun e => { e with synced := true })).filter (fun e => !e.synced) = [] := by
  induction a with
  | nil => rfl
  | cons e es ih => simp [List.filter_cons, ih]

theorem mark_filter_join (n : ℕ) (hn : 0 < n) (P : List OfflineEvent → Bool) :
    ∀ (m : ℕ) (u : List OfflineEvent), u.length ≤ m → (∀ e ∈ u, e.synced = false) →
      ∀ g : ℕ → Bool, (∀ i, g i = P ((batchEvents u n).getD i [])) →
      (markWith n g 0 u).filter (fun e => !e.synced) =
        ((batchEvents u n).filter (fun b => !(P b))).flatten := by
  intro m
  induction m with
  | zero =>
    intro u hlen _ g _
    have : u = [] := List.eq_nil_of_length_eq_zero (Nat.le_zero.mp hlen)
    subst this
    rfl
  | succ m ih =>
    intro u hlen hall g hg
    by_cases hu : u = []
    · subst hu; rfl
    · have hbe := batchEvents_cons hn u hu
      have hg0 : g 0 = P (u.take n) := by
        rw [hg 0, hbe, List.getD_cons_zero]
      have htakeall : ∀ e ∈ u.take n, e.synced = false :=
        fun e he => hall e (List.take_subset n u he)
      have hmtake : markWith n g 0 (u.take n) =
          (u.take n).map (fun e => { e with synced := g 0 }) := by
        apply markWith_const
        · exact htakeall
        · rw [List.length_take]
          omega
      have hsplit : markWith n g 0 u =
          markWith n g 0 (u.take n) ++
            markWith n g (0 + ((u.take n).filter (fun e => !e.synced)).length) (u.drop n) := by
        conv_lhs => rw [← List.take_append_drop n u]
        exact markWith_append n g (u.take n) (u.drop n) 0
      have hfiltake : ((u.take n).filter (fun e => !e.synced)) = u.take n := by
        rw [List.filter_eq_self]
        intro e he
        simp [htakeall e he]
      by_cases hsmall : u.length ≤ n
      · have htake : u.take n = u := List.take_of_length_le hsmall
        have hdrop : u.drop n = [] := List.drop_eq_nil_of_le hsmall
        have hone : batchEvents u n = [u] := by
          rw [hbe, htake, hdrop]
          rfl
        have hg0u : g 0 = P u := by rw [hg0, htake]
        rw [hsplit, hmtake, hdrop]
        rw [show markWith n g (0 + ((u.take n).filter (fun e => !e.synced)).length)
              ([] : List OfflineEvent) = [] from rfl]
        rw [List.append_nil, htake, hone, hg0u]
        by_cases hP : P u = true
        · rw [hP, filter_map_synced_true]
          simp [List.filter_cons, hP]
        · have hPf : P u = false := by
            cases hPv : P u with
            | true => exact absurd hPv hP
            | false => rfl
          rw [hPf, map_synced_false_id u hall]
          rw [List.filter_eq_self.mpr (fun e he => by simp [hall e he])]
          simp [List.filter_cons, hPf]
      · push_neg at hsmall
        have htklen : (u.take n).length = n := by
          rw [List.length_take]
          omega
        rw [hsplit, hfiltake, htklen, Nat.zero_add]
        rw [show markWith n g n (u.drop n) = markWith n g (n + 0) (u.drop n) by rw [Nat.add_zero]]
        rw [markWith_shift n g hn (u.drop n) 0]
        rw [List.filter_append]
        have hdrople : (u.drop n).length ≤ m := by
          rw [List.length_drop]
          omega
        have hdropall : ∀ e ∈ u.drop n, e.synced = false :=
          fun e he => hall e (List.drop_subset n u he)
        have hg' : ∀ i, (fun i => g (i + 1)) i = P ((batchEvents (u.drop n) n).getD i []) := by
          intro i
          show g (i + 1) = _
          rw [hg (i + 1), hbe, List.getD_cons_succ]
        rw [ih (u.drop n) hdrople hdropall _ hg']
        rw [hmtake, hbe]
        by_cases hP : P (u.take n) = true
        · rw [show g 0 = true by rw [hg0]; exact hP]
          rw [filter_map_synced_true]
          simp only [List.filter_cons, hP]
          simp
        · have hPf : P (u.take n) = false := by
            cases hPv : P (u.take n) with
            | true => exact absurd hPv hP
            | false => rfl
          rw [show g 0 = false by rw [hg0]; exact hPf]
          rw [map_synced_false_id _ htakeall]
          rw [List.filter_eq_self.mpr (fun e he => by simp [htakeall e he])]
          simp only [List.filter_cons, hPf]
          simp

theorem syncPendingEvents_queue_eq (sinks : List Sink) (pending : List OfflineEvent)
    (hne : pending.filter (fun e => !e.synced) ≠ []) :
    (syncPendingEvents true sinks pending).1 =
      ((batchEvents (pending.filter (fun e => !e.synced)) 50).filter
        (fun b => !(allSinksOk sinks b))).flatten := by
  have hemp : (pending.filter (fun e => !e.synced)).isEmpty = false := by
    cases hl : pending.filter (fun e => !e.synced) with
    | nil => exact absurd hl hne
    | cons x xs => rfl
  simp only [syncPendingEvents, Bool.not_true, Bool.false_eq_true, if_false, hemp]
  rw [markWith_filter_comm]
  exact mark_filter_join 50 (by norm_num) (allSinksOk sinks)
    (pending.filter (fun e => !e.synced)).length _ (le_refl _)
    (fun e he => by simpa using (List.mem_filter.mp he).2)
    _ (fun i => rfl)

/-- C10: for every list of transition events whose latitude and longitude
have at most six decimal places, decompressEvents composed with
compressEvents returns a list of the same length whose elements preserve
id, type, regionId, timestamp and the (identically rounded) coordinates,
while every output event has synced false and a location without
accuracy. -/
theorem C10_decompress_compress_roundtrip (events : List OfflineEvent)
    (h : ∀ e ∈ events, hasAtMostSixDecimals e.location.latitude ∧
      hasAtMostSixDecimals e.location.longitude) :
    decompressEvents (compressEvents events) =
      events.map (fun e =>
        ({ id := e.id
           type := e.type
           regionId := e.regionId
           location :=
             { latitude := e.location.latitude
               longitude := e.location.longitude
               accuracy := none
               timestamp := e.timestamp }
           timestamp := e.timestamp
           synced := false } : OfflineEvent)) := by
  unfold decompressEvents compressEvents
  rw [List.map_map]
  apply List.map_congr_left
  intro e he
  obtain ⟨hlat, hlng⟩ := h e he
  have hlat2 := round_sixDecimals _ hlat
  have hlng2 := round_sixDecimals _ hlng
  simp only [Function.comp_apply]
  cases htype : e.type with
  | enter => simp [htype, hlat2, hlng2]
  | exit => simp [htype, hlat2, hlng2]

/-- C10 witness: the round trip evaluated on two concrete events with
six-decimal coordinates. -/
theorem C10_decompress_compress_roundtrip_witness :
    (∀ e ∈ [sampleEventA, sampleEventB], hasAtMostSixDecimals e.location.latitude ∧
      hasAtMostSixDecimals e.location.longitude)
    ∧ decompressEvents (compressEvents [sampleEventA, sampleEventB]) =
        [sampleEventA, sampleEventB].map (fun e =>
          ({ id := e.id
             type := e.type
             regionId := e.regionId
             location :=
               { latitude := e.location.latitude
                 longitude := e.location.longitude
                 accuracy := none
                 timestamp := e.timestamp }
             timestamp := e.timestamp
             synced := false } : OfflineEvent)) := by
  have h : ∀ e ∈ [sampleEventA, sampleEventB], hasAtMostSixDecimals e.location.latitude ∧
      hasAtMostSixDecimals e.location.longitude := by
    intro e he
    simp only [List.mem_cons, List.mem_singleton] at he
    rcases he with rfl | rfl | he
    · exact ⟨⟨12345678, by norm_num [sampleEventA, sampleFixA]⟩,
        ⟨-1, by norm_num [sampleEventA, sampleFixA]⟩⟩
    · exact ⟨⟨-7250000, by norm_num [sampleEventB, sampleFixB]⟩,
        ⟨179000001, by norm_num [sampleEventB, sampleFixB]⟩⟩
    · simp at he
  exact ⟨h, C10_decompress_compress_roundtrip _ h⟩

/-- C6: on a flush over a nonempty unsynced queue, the resulting pending
queue is exactly the concatenation of the batches on which some sink
failed: every event of a batch whose sinks all succeeded is marked
synced and pruned, and every event of a failed batch remains in the
queue with synced still false. -/
theorem C6_syncPendingEvents_batch_semantics (sinks : List Sink) (pending : List OfflineEvent)
    (hne : pending.filter (fun e => !e.synced) ≠ []) :
    ((syncPendingEvents true sinks pending).1 =
        ((batchEvents (pending.filter (fun e => !e.synced)) 50).filter
          (fun b => !(allSinksOk sinks b))).flatten)
    ∧ (∀ b ∈ batchEvents (pending.filter (fun e => !e.synced)) 50,
        (∀ e ∈ b, e.synced = false)
        ∧ (allSinksOk sinks b = false →
            ∀ e ∈ b, e ∈ (syncPendingEvents true sinks pending).1)) := by
  refine ⟨syncPendingEvents_queue_eq sinks pending hne, ?_⟩
  intro b hb
  constructor
  · intro e he
    have hu : e ∈ pending.filter (fun x => !x.synced) :=
      mem_batchEvents_sublist (by norm_num) _ b hb e he
    simpa using (List.mem_filter.mp hu).2
  · intro hfail e he
    rw [syncPendingEvents_queue_eq sinks pending hne]
    exact List.mem_flatten.mpr ⟨b, List.mem_filter.mpr ⟨hb, by simp [hfail]⟩, he⟩

/-- C6 witness: a flush over one concrete unsynced event with a sink
list whose single sink rejects every batch. -/
theorem C6_syncPendingEvents_batch_semantics_witness :
    (([sampleEventB].filter (fun e => !e.synced)) ≠ [])
    ∧ (((syncPendingEvents true [fun _ => false] [sampleEventB]).1 =
          ((batchEvents ([sampleEventB].filter (fun e => !e.synced)) 50).filter
            (fun b => !(allSinksOk [fun _ => false] b))).flatten)
        ∧ (∀ b ∈ batchEvents ([sampleEventB].filter (fun e => !e.synced)) 50,
            (∀ e ∈ b, e.synced = false)
            ∧ (allSinksOk [fun _ => false] b = false →
                ∀ e ∈ b, e ∈ (syncPendingEvents true [fun _ => false] [sampleEventB]).1))) := by
  have hne : ([sampleEventB].filter (fun e => !e.synced)) ≠ [] := by
    simp [sampleEventB]
  exact ⟨hne, C6_syncPendingEvents_batch_semantics [fun _ => false] [sampleEventB] hne⟩

/-- C5 (amended part): in the OfflineManager queue, when every flush
attempt fails (all sinks reject every batch), any unsynced event remains
in the pending queue after arbitrarily many sync attempts; no attempt
count ever removes it. -/
theorem C5_offline_events_retained_under_failures (sinks : List Sink)
    (hfail : ∀ b, allSinksOk sinks b = false) :
    ∀ (q : List OfflineEvent) (e : OfflineEvent), e ∈ q → e.synced = false →
      ∀ m : ℕ, e ∈ ((fun q => (syncPendingEvents true sinks q).1)^[m] q) := by
  have hstep : ∀ (q : List OfflineEvent) (e : OfflineEvent), e ∈ q → e.synced = false →
      e ∈ (syncPendingEvents true sinks q).1 := by
    intro q e he hs
    have hu : e ∈ q.filter (fun x => !x.synced) := List.mem_filter.mpr ⟨he, by simp [hs]⟩
    by_cases hne : q.filter (fun x => !x.synced) = []
    · rw [hne] at hu
      simp at hu
    · rw [syncPendingEvents_queue_eq sinks q hne]
      have hkeep : (batchEvents (q.filter (fun x => !x.synced)) 50).filter
          (fun b => !(allSinksOk sinks b)) = batchEvents (q.filter (fun x => !x.synced)) 50 := by
        rw [List.filter_eq_self]
        intro b _
        simp [hfail b]
      rw [hkeep, batchEvents_flatten (by norm_num) _ _ (le_refl _)]
      exact hu
  intro q e he hs m
  induction m generalizing q with
  | zero => simpa using he
  | succ m ih =>
    rw [Function.iterate_succ_apply]
    exact ih _ (hstep q e he hs)

/-- C5 witness: a concrete unsynced event survives two consecutive
all-failing sync attempts. -/
theorem C5_offline_events_retained_under_failures_witness :
    (∀ b, allSinksOk [fun _ => false] b = false)
    ∧ sampleEventB ∈ ((fun q => (syncPendingEvents true [fun _ => false] q).1)^[2] [sampleEventB]) :=
  ⟨fun _ => rfl,
    C5_offline_events_retained_under_failures [fun _ => false] (fun _ => rfl)
      [sampleEventB] sampleEventB (List.mem_singleton.mpr rfl) rfl 2⟩

end Offline

namespace Webhook

open GeoUtil

/-- C5 counterexample: a delivery whose webhook uses the default
maxRetries of 3 is marked failed on the third consecutive failed attempt
and is then removed from the delivery queue by the cleanup step, so
failed attempts do stop being retried because of an attempt count. -/
theorem C5_webhook_drops_after_max_retries :
    cexDelivery2.status = DeliveryStatus.retrying ∧ cexDelivery2.attempt = 3
    ∧ cexDelivery3.status = DeliveryStatus.failed
    ∧ cleanupDeliveryQueue [cexDelivery3] = [] := by
  refine ⟨rfl, rfl, rfl, ?_⟩
  show List.filter _ [cexDelivery3] = []
  rw [List.filter_cons]
  have hst : cexDelivery3.status = DeliveryStatus.failed := rfl
  rw [if_neg]
  · rfl
  · rw [hst]
    simp

/-- C7 counterexample: with backoff cap maxDelay = 1000 ms, the second
attempt with jitter draw 0.5 schedules a delay of 1500 ms from now,
which exceeds the configured maximum delay ceiling. -/
theorem C7_jitter_exceeds_cap :
    calculateNextRetryTime cexRetryConfig 2 (1 / 2) 0 = 1500
    ∧ cexRetryConfig.maxDelay = 1000
    ∧ cexRetryConfig.maxDelay < calculateNextRetryTime cexRetryConfig 2 (1 / 2) 0 - 0 := by
  refine ⟨?_, rfl, ?_⟩ <;> norm_num [calculateNextRetryTime, cexRetryConfig]

/-- C7 (amended): under the exponential strategy the pre-jitter delay
equals min(baseDelay * 2 ^ (attempt - 1), maxDelay), is non-decreasing
in the attempt number, and never exceeds maxDelay; the jitter of less
than 1000 ms is added after the cap, so the scheduled delay stays below
maxDelay + 1000 (but can exceed maxDelay).  The OfflineManager retry
delay sequence likewise equals min(1000 * 2 ^ m, 60000), is
non-decreasing and capped at 60000. -/
theorem C7_backoff_properties (cfg : RetryConfig)
    (hexp : cfg.backoffStrategy = BackoffStrategy.exponential)
    (hbase : 0 ≤ cfg.baseDelay) (a b : ℕ) (hab : a ≤ b) (rand now : ℚ)
    (hr0 : 0 ≤ rand) (hr1 : rand < 1) :
    (calculateNextRetryTime cfg a 0 now = now + min (cfg.baseDelay * 2 ^ (a - 1)) cfg.maxDelay)
    ∧ calculateNextRetryTime cfg a 0 now ≤ calculateNextRetryTime cfg b 0 now
    ∧ calculateNextRetryTime cfg a 0 now - now ≤ cfg.maxDelay
    ∧ calculateNextRetryTime cfg a rand now - now < cfg.maxDelay + 1000
    ∧ (∀ m : ℕ, Offline.offlineRetryDelay m = min (1000 * 2 ^ m) 60000)
    ∧ (∀ m : ℕ, Offline.offlineRetryDelay m ≤ Offline.offlineRetryDelay (m + 1))
    ∧ (∀ m : ℕ, Offline.offlineRetryDelay m ≤ 60000) := by
  have hlin : ¬ (cfg.backoffStrategy = BackoffStrategy.linear) := by
    rw [hexp]
    intro hcontra
    exact BackoffStrategy.noConfusion hcontra
  have hform : ∀ (att : ℕ) (r : ℚ), calculateNextRetryTime cfg att r now =
      now + (min (cfg.baseDelay * 2 ^ (att - 1)) cfg.maxDelay + r * 1000) := by
    intro att r
    simp [calculateNextRetryTime, hlin]
  have hclosed : ∀ m : ℕ, Offline.offlineRetryDelay m = min (1000 * 2 ^ m) 60000 := by
    intro m
    induction m with
    | zero =>
      show (1000 : ℚ) = min (1000 * 2 ^ 0) 60000
      norm_num
    | succ m ih =>
      show min (Offline.offlineRetryDelay m * 2) 60000 = min (1000 * 2 ^ (m + 1)) 60000
      rw [ih, min_mul_of_nonneg _ _ (by norm_num : (0 : ℚ) ≤ 2), min_assoc]
      congr 1
      · ring
      · norm_num
  have hpowmono : cfg.baseDelay * 2 ^ (a - 1) ≤ cfg.baseDelay * 2 ^ (b - 1) := by
    apply mul_le_mul_of_nonneg_left _ hbase
    exact pow_le_pow_right₀ (by norm_num) (Nat.sub_le_sub_right hab 1)
  refine ⟨by rw [hform]; ring_nf, ?_, ?_, ?_, hclosed, ?_, ?_⟩
  · rw [hform, hform]
    have := min_le_min hpowmono (le_refl cfg.maxDelay)
    linarith
  · rw [hform]
    have := min_le_right (cfg.baseDelay * 2 ^ (a - 1)) cfg.maxDelay
    linarith
  · rw [hform]
    have h1 := min_le_right (cfg.baseDelay * 2 ^ (a - 1)) cfg.maxDelay
    have h2 : rand * 1000 < 1000 := by nlinarith
    linarith
  · intro m
    rw [hclosed, hclosed]
    apply min_le_min _ (le_refl _)
    have : (2 : ℚ) ^ m ≤ 2 ^ (m + 1) := pow_le_pow_right₀ (by norm_num) (Nat.le_succ m)
    nlinarith
  · intro m
    rw [hclosed]
    exact min_le_right _ _

/-- C7 witness: the amended properties evaluated on the default
exponential configuration at attempts 1 and 3 with jitter draw 0.5. -/
theorem C7_backoff_properties_witness :
    (cexWebhook.retryConfig.backoffStrategy = BackoffStrategy.exponential
      ∧ (0 : ℚ) ≤ cexWebhook.retryConfig.baseDelay ∧ (1 : ℕ) ≤ 3
      ∧ (0 : ℚ) ≤ 1 / 2 ∧ (1 / 2 : ℚ) < 1)
    ∧ ((calculateNextRetryTime cexWebhook.retryConfig 1 0 0 =
          0 + min (cexWebhook.retryConfig.baseDelay * 2 ^ (1 - 1)) cexWebhook.retryConfig.maxDelay)
        ∧ calculateNextRetryTime cexWebhook.retryConfig 1 0 0 ≤
            calculateNextRetryTime cexWebhook.retryConfig 3 0 0
        ∧ calculateNextRetryTime cexWebhook.retryConfig 1 0 0 - 0 ≤ cexWebhook.retryConfig.maxDelay
        ∧ calculateNextRetryTime cexWebhook.retryConfig 1 (1 / 2) 0 - 0 <
            cexWebhook.retryConfig.maxDelay + 1000
        ∧ (∀ m : ℕ, Offline.offlineRetryDelay m = min (1000 * 2 ^ m) 60000)
        ∧ (∀ m : ℕ, Offline.offlineRetryDelay m ≤ Offline.offlineRetryDelay (m + 1))
        ∧ (∀ m : ℕ, Offline.offlineRetryDelay m ≤ 60000)) :=
  ⟨⟨rfl, by norm_num [cexWebhook], by norm_num, by norm_num, by norm_num⟩,
    C7_backoff_properties cexWebhook.retryConfig rfl (by norm_num [cexWebhook]) 1 3
      (by norm_num) (1 / 2) 0 (by norm_num) (by norm_num)⟩

end Webhook

namespace PG

open GeoUtil

theorem setAdd_mem_of_mem (l : List String) (a id : String) (h : a ∈ l) : a ∈ setAdd l id := by
  unfold setAdd
  by_cases hin : id ∈ l
  · rwa [if_pos hin]
  · rw [if_neg hin]
    exact List.mem_append_left _ h

theorem setAdd_mem_self (l : List String) (id : String) : id ∈ setAdd l id := by
  unfold setAdd
  by_cases hin : id ∈ l
  · rwa [if_pos hin]
  · rw [if_neg hin]
    exact List.mem_append_right _ (List.mem_singleton.mpr rfl)

theorem foldl_setAdd_mem_of_mem (ids : List String) (a : String) :
    ∀ acc : List String, a ∈ acc → a ∈ ids.foldl setAdd acc := by
  induction ids with
  | nil => intro acc h; exact h
  | cons i rest ih =>
    intro acc h
    exact ih (setAdd acc i) (setAdd_mem_of_mem acc a i h)

theorem foldl_buckets_mem_of_mem (st : PGState) (cells : List (ℤ × ℤ)) (a : String) :
    ∀ acc : List String, a ∈ acc →
      a ∈ cells.foldl (fun acc cell => ((mapGet st.spatialIndex cell).getD []).foldl setAdd acc) acc := by
  induction cells with
  | nil => intro acc h; exact h
  | cons c rest ih =>
    intro acc h
    exact ih _ (foldl_setAdd_mem_of_mem _ a acc h)

theorem getCandidateIds_of_mem_own (st : PGState) (p : Point) (a : String)
    (h : a ∈ (mapGet st.spatialIndex (getGridCell p.latitude p.longitude)).getD []) :
    a ∈ getCandidateIds st p := by
  unfold getCandidateIds
  exact foldl_buckets_mem_of_mem st _ a _ h

theorem updateHierarchyReferences_geofences (st : PGState) (h : GeofenceHierarchy) :
    (updateHierarchyReferences st h).geofences = st.geofences := by
  unfold updateHierarchyReferences
  cases hp : h.parentId with
  | none => rfl
  | some pid =>
    cases hg : mapGet (mapSet st.hierarchies h.id h) pid with
    | none => simp [hg]
    | some parent =>
      by_cases hmem : h.id ∈ parent.children
      · simp [hg, hmem]
      · simp [hg, hmem]

theorem updateHierarchyReferences_spatialIndex (st : PGState) (h : GeofenceHierarchy) :
    (updateHierarchyReferences st h).spatialIndex = st.spatialIndex := by
  unfold updateHierarchyReferences
  cases hp : h.parentId with
  | none => rfl
  | some pid =>
    cases hg : mapGet (mapSet st.hierarchies h.id h) pid with
    | none => simp [hg]
    | some parent =>
      by_cases hmem : h.id ∈ parent.children
      · simp [hg, hmem]
      · simp [hg, hmem]

theorem addToSpatialIndex_geofences (st : PGState) (g : AdvancedGeofenceRegion) :
    (addToSpatialIndex st g).geofences = st.geofences := by
  unfold addToSpatialIndex
  split
  · rfl
  · rfl

theorem addToSpatialIndex_hierarchies (st : PGState) (g : AdvancedGeofenceRegion) :
    (addToSpatialIndex st g).hierarchies = st.hierarchies := by
  unfold addToSpatialIndex
  split
  · rfl
  · rfl

theorem addGeofence_fst_geofences (st : PGState) (region : AdvancedGeofenceRegion) :
    ((addGeofence st region).1).geofences =
      mapSet st.geofences region.id
        { region with boundingBox := some (calculateBoundingBox region) } := by
  unfold addGeofence
  cases hh : region.hierarchy with
  | none =>
    simp only [hh]
    rw [addToSpatialIndex_geofences]
  | some h =>
    simp only [hh]
    rw [updateHierarchyReferences_geofences]
    show (addToSpatialIndex _ _).geofences = _
    rw [addToSpatialIndex_geofences]

theorem addGeofence_fst_spatialIndex (st : PGState) (region : AdvancedGeofenceRegion) :
    ((addGeofence st region).1).spatialIndex =
      (getGridCells (calculateBoundingBox region)).foldl
        (fun idx cell => mapSet idx cell (setAdd ((mapGet idx cell).getD []) region.id))
        st.spatialIndex := by
  unfold addGeofence
  cases hh : region.hierarchy with
  | none =>
    simp only [hh]
    show (addToSpatialIndex _ _).spatialIndex = _
    unfold addToSpatialIndex
    rfl
  | some h =>
    simp only [hh]
    rw [updateHierarchyReferences_spatialIndex]
    show (addToSpatialIndex _ _).spatialIndex = _
    unfold addToSpatialIndex
    rfl

theorem addGeofence_geofences_lookup (st : PGState) (region : AdvancedGeofenceRegion) :
    mapGet ((addGeofence st region).1).geofences region.id =
      some { region with boundingBox := some (calculateBoundingBox region) } := by
  rw [addGeofence_fst_geofences]
  exact mapGet_mapSet_self _ _ _

theorem mem_bucket_foldl_insert (gid : String) (cells : List (ℤ × ℤ)) :
    ∀ (idx : List ((ℤ × ℤ) × List String)) (cell : ℤ × ℤ) (a : String),
      a ∈ (mapGet idx cell).getD [] →
      a ∈ (mapGet (cells.foldl
        (fun idx c => mapSet idx c (setAdd ((mapGet idx c).getD []) gid)) idx) cell).getD [] := by
  induction cells with
  | nil => intro idx cell a h; exact h
  | cons c rest ih =>
    intro idx cell a h
    rw [List.foldl_cons]
    apply ih
    by_cases hc : cell = c
    · subst hc
      rw [mapGet_mapSet_self]
      simpa using setAdd_mem_of_mem _ a gid h
    · rw [mapGet_mapSet_ne _ _ _ _ hc]
      exact h

theorem self_mem_bucket_foldl_insert (gid : String) (cells : List (ℤ × ℤ)) :
    ∀ (idx : List ((ℤ × ℤ) × List String)) (cell : ℤ × ℤ), cell ∈ cells →
      gid ∈ (mapGet (cells.foldl
        (fun idx c => mapSet idx c (setAdd ((mapGet idx c).getD []) gid)) idx) cell).getD [] := by
  induction cells with
  | nil => intro idx cell h; simp at h
  | cons c rest ih =>
    intro idx cell h
    rw [List.foldl_cons]
    rcases List.mem_cons.mp h with hc | hrest
    · subst hc
      apply mem_bucket_foldl_insert
      rw [mapGet_mapSet_self]
      simpa using setAdd_mem_self _ gid
    · exact ih _ cell hrest

theorem lookup_foldl_insert_notmem (gid : String) (cells : List (ℤ × ℤ)) :
    ∀ (idx : List ((ℤ × ℤ) × List String)) (cell : ℤ × ℤ), cell ∉ cells →
      mapGet (cells.foldl
        (fun idx c => mapSet idx c (setAdd ((mapGet idx c).getD []) gid)) idx) cell =
        mapGet idx cell := by
  induction cells with
  | nil => intro idx cell _; rfl
  | cons c rest ih =>
    intro idx cell h
    have hc : cell ≠ c := fun he => h (he ▸ List.mem_cons_self c rest)
    have hrest : cell ∉ rest := fun he => h (List.mem_cons_of_mem c he)
    rw [List.foldl_cons, ih _ cell hrest, mapGet_mapSet_ne _ _ _ _ hc]

/-- C8 (amended): adding a region whose id duplicates an existing live
region is accepted, not rejected: the call returns the id, the live set
maps the id to the new region (last write wins, with a freshly derived
bounding box), and the spatial index keeps every previously indexed id
in place (stale cells of the old shape are not removed). -/
theorem C8_addGeofence_last_write_wins (st : PGState) (region : AdvancedGeofenceRegion) :
    (addGeofence st region).2 = region.id
    ∧ mapGet ((addGeofence st region).1).geofences region.id =
        some { region with boundingBox := some (calculateBoundingBox region) }
    ∧ ∀ (cell : ℤ × ℤ) (a : String), a ∈ (mapGet st.spatialIndex cell).getD [] →
        a ∈ (mapGet ((addGeofence st region).1).spatialIndex cell).getD [] := by
  refine ⟨rfl, addGeofence_geofences_lookup st region, ?_⟩
  intro cell a h
  rw [addGeofence_fst_spatialIndex]
  exact mem_bucket_foldl_insert _ _ _ cell a h

/-- C8 counterexample: adding dupRegionB under the id of the already
live dupRegionA is not rejected (the call returns the id as on any
successful add) and the live region set is changed: the stored vertices
switch from the first shape to the second. -/
theorem C8_duplicate_id_accepted_cex :
    (addGeofence dupState1 dupRegionB).2 = "dup"
    ∧ ((mapGet dupState1.geofences "dup").map (fun g => g.vertices)) = some dupRegionA.vertices
    ∧ ((mapGet dupState2.geofences "dup").map (fun g => g.vertices)) = some dupRegionB.vertices
    ∧ dupRegionA.vertices ≠ dupRegionB.vertices := by
  refine ⟨rfl, ?_, ?_, ?_⟩
  · have h : mapGet dupState1.geofences "dup" =
        some { dupRegionA with boundingBox := some (calculateBoundingBox dupRegionA) } :=
      addGeofence_geofences_lookup emptyState dupRegionA
    rw [h]
    rfl
  · have h : mapGet dupState2.geofences "dup" =
        some { dupRegionB with boundingBox := some (calculateBoundingBox dupRegionB) } :=
      addGeofence_geofences_lookup dupState1 dupRegionB
    rw [h]
    rfl
  · intro hcontra
    have h0 : dupRegionA.vertices = [⟨0, 0⟩, ⟨0, 1⟩, ⟨1, 0⟩] := rfl
    have h1 : dupRegionB.vertices = [⟨2, 2⟩, ⟨2, 3⟩, ⟨3, 2⟩] := rfl
    rw [h0, h1] at hcontra
    have : ((0 : ℚ)) = 2 := congrArg Point.latitude (List.head_eq_of_cons_eq hcontra)
    norm_num at this

/-- C9 (amended): the hierarchy ledger performs no cycle detection:
updateHierarchyReferences records the given record under its id
unconditionally (whenever the named parent is not the record itself,
which would instead overwrite it with an extended child list), with no
failure path. -/
theorem C9_updateHierarchy_no_cycle_check (st : PGState) (h : GeofenceHierarchy)
    (hne : h.parentId ≠ some h.id) :
    mapGet (updateHierarchyReferences st h).hierarchies h.id = some h := by
  unfold updateHierarchyReferences
  cases hp : h.parentId with
  | none => exact mapGet_mapSet_self _ _ _
  | some pid =>
    cases hg : mapGet (mapSet st.hierarchies h.id h) pid with
    | none =>
      simp only [hg]
      exact mapGet_mapSet_self _ _ _
    | some parent =>
      have hpid : h.id ≠ pid := by
        intro he
        exact hne (by rw [hp, he])
      by_cases hmem : h.id ∈ parent.children
      · simp only [hg, if_pos hmem]
        exact mapGet_mapSet_self _ _ _
      · simp only [hg, if_neg hmem]
        rw [mapGet_mapSet_ne _ _ _ _ hpid]
        exact mapGet_mapSet_self _ _ _

/-- C9 witness: recording hierA (child a, parent b) in the empty ledger. -/
theorem C9_updateHierarchy_no_cycle_check_witness :
    hierA.parentId ≠ some hierA.id
    ∧ mapGet (updateHierarchyReferences emptyState hierA).hierarchies hierA.id = some hierA :=
  ⟨by decide, C9_updateHierarchy_no_cycle_check emptyState hierA (by decide)⟩

/-- C9 counterexample: adding region a with parent b and then region b
with parent a succeeds (no CycleError exists in the code), after which
the ledger holds a parent-pointer cycle: the hierarchy edges no longer
form a forest. -/
theorem C9_hierarchy_cycle_cex :
    (addGeofence (addGeofence emptyState regionHA).1 regionHB).2 = "b"
    ∧ specHierarchyHasParentCycle cycleState.hierarchies = true := by
  constructor
  · rfl
  · rfl

/-- C4 counterexample: a rule window 09:00 to 17:00 matches the minute
17:00 itself (the code compares with less-or-equal), while the claimed
half-open window [start, end) excludes it. -/
theorem C4_time_window_end_inclusive_cex :
    isTimeInRange (timeToMinutes ⟨17, 0⟩) (timeToMinutes ⟨9, 0⟩) (timeToMinutes ⟨17, 0⟩) = true
    ∧ ¬(timeToMinutes ⟨9, 0⟩ ≤ timeToMinutes ⟨17, 0⟩
        ∧ timeToMinutes ⟨17, 0⟩ < timeToMinutes ⟨17, 0⟩) := by
  decide

theorem region_eta_wasInside (g : AdvancedGeofenceRegion) (b : Bool)
    (h : g.wasInside = some b) : { g with wasInside := some b } = g := by
  cases g
  simp only at h
  simp [h]

theorem bool_eq_false_of_not {b : Bool} (h : ¬ (b = true)) : b = false := by
  cases hb : b with
  | true => exact absurd hb h
  | false => rfl

theorem wellKeyed_lookup (m : List (String × AdvancedGeofenceRegion)) (k : String)
    (v : AdvancedGeofenceRegion) (hwk : wellKeyed m = true) (h : mapGet m k = some v) :
    v.id = k := by
  have hmem := mapGet_mem m k v h
  have := List.all_eq_true.mp hwk (k, v) hmem
  simpa using this

theorem wellKeyed_mapSet (m : List (String × AdvancedGeofenceRegion)) (k : String)
    (v : AdvancedGeofenceRegion) (hwk : wellKeyed m = true) (hv : v.id = k) :
    wellKeyed (mapSet m k v) = true := by
  unfold mapSet
  by_cases h : m.any (fun e => decide (e.1 = k)) = true
  · rw [if_pos h]
    unfold wellKeyed
    rw [List.all_eq_true]
    intro e he
    obtain ⟨e0, he0, hee⟩ := List.mem_map.mp he
    by_cases h0 : e0.1 = k
    · rw [if_pos h0] at hee
      subst hee
      simpa using hv
    · rw [if_neg h0] at hee
      subst hee
      exact List.all_eq_true.mp hwk e0 he0
  · rw [if_neg h]
    unfold wellKeyed
    rw [List.all_eq_true]
    intro e he
    rcases List.mem_append.mp he with hm | hm
    · exact List.all_eq_true.mp hwk e hm
    · have : e = (k, v) := List.mem_singleton.mp hm
      subst this
      simpa using hv

theorem checkStep_lookup_other (p : Point) (ts : ℤ) (acc : PGState × CheckResult)
    (i id : String) (hne : i ≠ id) :
    mapGet ((checkStep p ts acc i).1).geofences id = mapGet acc.1.geofences id := by
  unfold checkStep
  cases hgi : mapGet acc.1.geofences i with
  | none => simp [hgi]
  | some gi =>
    simp only [hgi]
    by_cases hg1 : isTimeRuleActive gi ts = true
    · by_cases hg2 : areConditionalRulesActive gi = true
      · simp only [hg1, hg2, Bool.not_true, Bool.false_eq_true, if_false]
        exact mapGet_mapSet_ne _ _ _ _ (fun he => hne he.symm)
      · simp [bool_eq_false_of_not hg2]
    · simp [bool_eq_false_of_not hg1]

theorem checkStep_gate_skip (p : Point) (ts : ℤ) (acc : PGState × CheckResult) (i : String)
    (g : AdvancedGeofenceRegion) (hacc : mapGet acc.1.geofences i = some g)
    (hfail : isTimeRuleActive g ts = false ∨ areConditionalRulesActive g = false) :
    checkStep p ts acc i = acc := by
  unfold checkStep
  simp only [hacc]
  rcases hfail with hf | hf
  · simp [hf]
  · by_cases hg1 : isTimeRuleActive g ts = true
    · simp [hg1, hf]
    · simp [bool_eq_false_of_not hg1]

theorem checkStep_wellKeyed (p : Point) (ts : ℤ) (acc : PGState × CheckResult) (i : String)
    (hwk : wellKeyed acc.1.geofences = true) :
    wellKeyed ((checkStep p ts acc i).1).geofences = true := by
  unfold checkStep
  cases hgi : mapGet acc.1.geofences i with
  | none => simpa [hgi] using hwk
  | some gi =>
    simp only [hgi]
    by_cases hg1 : isTimeRuleActive gi ts = true
    · by_cases hg2 : areConditionalRulesActive gi = true
      · simp only [hg1, hg2, Bool.not_true, Bool.false_eq_true, if_false]
        have hid : gi.id = i := wellKeyed_lookup _ _ _ hwk hgi
        exact wellKeyed_mapSet _ _ _ hwk hid
      · simpa [bool_eq_false_of_not hg2] using hwk
    · simpa [bool_eq_false_of_not hg1] using hwk

theorem checkStep_entered_other (p : Point) (ts : ℤ) (acc : PGState × CheckResult)
    (i id : String) (hne : i ≠ id) (hwk : wellKeyed acc.1.geofences = true)
    (hent : id ∉ acc.2.entered.map (fun r => r.id)) :
    id ∉ ((checkStep p ts acc i).2).entered.map (fun r => r.id) := by
  unfold checkStep
  cases hgi : mapGet acc.1.geofences i with
  | none => simpa [hgi] using hent
  | some gi =>
    have hid : gi.id = i := wellKeyed_lookup _ _ _ hwk hgi
    simp only [hgi]
    by_cases hg1 : isTimeRuleActive gi ts = true
    · by_cases hg2 : areConditionalRulesActive gi = true
      · simp only [hg1, hg2, Bool.not_true, Bool.false_eq_true, if_false]
        by_cases hin : isPointInside p gi = true
        · simp only [hin, if_true]
          by_cases hpush : (!(gi.wasInside.getD false) && gi.notifyOnEntry) = true
          · simp only [hpush, if_true]
            intro hmem
            rcases List.mem_map.mp hmem with ⟨r, hr, hrid⟩
            rcases List.mem_append.mp hr with hr0 | hr1
            · exact hent (List.mem_map.mpr ⟨r, hr0, hrid⟩)
            · have : r = gi := List.mem_singleton.mp hr1
              subst this
              exact hne (hrid ▸ hid ▸ rfl)
          · simp only [bool_eq_false_of_not hpush, Bool.false_eq_true, if_false]
            exact hent
        · simp only [bool_eq_false_of_not hin, Bool.false_eq_true, if_false]
          by_cases hexit : (gi.wasInside.getD false && gi.notifyOnExit) = true
          · simpa [hexit] using hent
          · simpa [bool_eq_false_of_not hexit] using hent
      · simpa [bool_eq_false_of_not hg2] using hent
    · simpa [bool_eq_false_of_not hg1] using hent

theorem checkStep_at_id (p : Point) (ts : ℤ) (acc : PGState × CheckResult) (id : String)
    (g : AdvancedGeofenceRegion) (hacc : mapGet acc.1.geofences id = some g)
    (hg1 : isTimeRuleActive g ts = true) (hg2 : areConditionalRulesActive g = true) :
    mapGet ((checkStep p ts acc id).1).geofences id =
      some { g with wasInside := some (isPointInside p g) } := by
  unfold checkStep
  simp only [hacc, hg1, hg2, Bool.not_true, Bool.false_eq_true, if_false]
  exact mapGet_mapSet_self _ _ _

theorem checkFold_keeps (p : Point) (ts : ℤ) (id : String) (h : AdvancedGeofenceRegion)
    (hfix : h.wasInside = some (isPointInside p h)) :
    ∀ (ids : List String) (acc : PGState × CheckResult),
      mapGet acc.1.geofences id = some h →
      mapGet ((ids.foldl (checkStep p ts) acc).1).geofences id = some h := by
  intro ids
  induction ids with
  | nil => intro acc hacc; exact hacc
  | cons i rest ih =>
    intro acc hacc
    rw [List.foldl_cons]
    apply ih
    by_cases hii : i = id
    · subst hii
      by_cases hg1 : isTimeRuleActive h ts = true
      · by_cases hg2 : areConditionalRulesActive h = true
        · rw [checkStep_at_id p ts acc i h hacc hg1 hg2, region_eta_wasInside h _ hfix]
        · rw [checkStep_gate_skip p ts acc i h hacc (Or.inr (bool_eq_false_of_not hg2))]
          exact hacc
      · rw [checkStep_gate_skip p ts acc i h hacc (Or.inl (bool_eq_false_of_not hg1))]
        exact hacc
    · rw [checkStep_lookup_other p ts acc i id hii]
      exact hacc

theorem checkFold_wellKeyed (p : Point) (ts : ℤ) :
    ∀ (ids : List String) (acc : PGState × CheckResult),
      wellKeyed acc.1.geofences = true →
      wellKeyed ((ids.foldl (checkStep p ts) acc).1).geofences = true := by
  intro ids
  induction ids with
  | nil => intro acc hwk; exact hwk
  | cons i rest ih =>
    intro acc hwk
    rw [List.foldl_cons]
    exact ih _ (checkStep_wellKeyed p ts acc i hwk)

theorem checkStep_no_enter_at_id (p : Point) (ts : ℤ) (acc : PGState × CheckResult)
    (id : String) (g : AdvancedGeofenceRegion)
    (hacc : mapGet acc.1.geofences id = some g)
    (hwas : g.wasInside = some true) (hin : isPointInside p g = true)
    (hent : id ∉ acc.2.entered.map (fun r => r.id)) :
    id ∉ ((checkStep p ts acc id).2).entered.map (fun r => r.id) := by
  unfold checkStep
  simp only [hacc]
  by_cases hg1 : isTimeRuleActive g ts = true
  · by_cases hg2 : areConditionalRulesActive g = true
    · simp only [hg1, hg2, Bool.not_true, Bool.false_eq_true, if_false, hin, if_true, hwas,
        Option.getD_some, Bool.not_true, Bool.false_and, Bool.false_eq_true]
      exact hent
    · simpa [bool_eq_false_of_not hg2] using hent
  · simpa [bool_eq_false_of_not hg1] using hent

theorem checkFold_no_enter (p : Point) (ts : ℤ) (id : String) (g : AdvancedGeofenceRegion)
    (hwas : g.wasInside = some true) (hin : isPointInside p g = true) :
    ∀ (ids : List String) (acc : PGState × CheckResult),
      mapGet acc.1.geofences id = some g →
      wellKeyed acc.1.geofences = true →
      id ∉ acc.2.entered.map (fun r => r.id) →
      id ∉ ((ids.foldl (checkStep p ts) acc).2).entered.map (fun r => r.id) := by
  have hfix : g.wasInside = some (isPointInside p g) := by rw [hwas, hin]
  intro ids
  induction ids with
  | nil => intro acc _ _ hent; exact hent
  | cons i rest ih =>
    intro acc hacc hwk hent
    rw [List.foldl_cons]
    apply ih
    · by_cases hii : i = id
      · subst hii
        by_cases hg1 : isTimeRuleActive g ts = true
        · by_cases hg2 : areConditionalRulesActive g = true
          · rw [checkStep_at_id p ts acc i g hacc hg1 hg2, region_eta_wasInside g _ hfix]
          · rw [checkStep_gate_skip p ts acc i g hacc (Or.inr (bool_eq_false_of_not hg2))]
            exact hacc
        · rw [checkStep_gate_skip p ts acc i g hacc (Or.inl (bool_eq_false_of_not hg1))]
          exact hacc
      · rw [checkStep_lookup_other p ts acc i id hii]
        exact hacc
    · exact checkStep_wellKeyed p ts acc i hwk
    · by_cases hii : i = id
      · subst hii
        exact checkStep_no_enter_at_id p ts acc i g hacc hwas hin hent
      · exact checkStep_entered_other p ts acc i id hii hwk hent

/-- C1: for every candidate region that passes both the time-rule and
conditional-rule gates, an evaluation pass stores the newly computed
containment result as the region state, with no condition on the
notifyOnEntry or notifyOnExit flags, so a later boundary flip is
detected. -/
theorem C1_state_updated_even_without_events (st : PGState) (p : Point) (ts : ℤ)
    (id : String) (g : AdvancedGeofenceRegion)
    (hget : mapGet st.geofences id = some g)
    (hmem : id ∈ getCandidateIds st p)
    (hpass : isTimeRuleActive g ts = true)
    (hcond : areConditionalRulesActive g = true) :
    mapGet ((checkLocation st p ts).1).geofences id =
      some { g with wasInside := some (isPointInside p g) } := by
  unfold checkLocation
  have main : ∀ (ids : List String) (acc : PGState × CheckResult), id ∈ ids →
      mapGet acc.1.geofences id = some g →
      mapGet ((ids.foldl (checkStep p ts) acc).1).geofences id =
        some { g with wasInside := some (isPointInside p g) } := by
    intro ids
    induction ids with
    | nil =>
      intro acc hmem0 _
      simp at hmem0
    | cons i rest ih =>
      intro acc hmem0 hacc
      rw [List.foldl_cons]
      by_cases hii : i = id
      · subst hii
        have hstep := checkStep_at_id p ts acc i g hacc hpass hcond
        have hfix2 : ({ g with wasInside := some (isPointInside p g) } :
            AdvancedGeofenceRegion).wasInside =
            some (isPointInside p { g with wasInside := some (isPointInside p g) }) := rfl
        exact checkFold_keeps p ts i _ hfix2 rest _ hstep
      · rcases List.mem_cons.mp hmem0 with h0 | h0
        · exact absurd h0.symm hii
        · apply ih _ h0
          rw [checkStep_lookup_other p ts acc i id hii]
          exact hacc
  exact main _ _ hmem hget

/-- C2: a region that fails the activation gate is skipped: its stored
state survives the pass unchanged, and consequently, with the device
still inside, a later pass on which the region is eligible again emits
no spurious Enter event for it. -/
theorem C2_gate_skip_preserves_state (st : PGState) (p1 p2 : Point) (ts1 ts2 : ℤ)
    (id : String) (g : AdvancedGeofenceRegion)
    (hwk : wellKeyed st.geofences = true)
    (hget : mapGet st.geofences id = some g)
    (hfail : isTimeRuleActive g ts1 = false ∨ areConditionalRulesActive g = false)
    (hwas : g.wasInside = some true)
    (hpass2 : isTimeRuleActive g ts2 = true)
    (hcond2 : areConditionalRulesActive g = true)
    (hinside2 : isPointInside p2 g = true) :
    mapGet ((checkLocation st p1 ts1).1).geofences id = some g
    ∧ id ∉ (((checkLocation (checkLocation st p1 ts1).1 p2 ts2).2).entered.map
        (fun r => r.id)) := by
  have hgatefold : ∀ (ids : List String) (acc : PGState × CheckResult),
      mapGet acc.1.geofences id = some g →
      mapGet ((ids.foldl (checkStep p1 ts1) acc).1).geofences id = some g := by
    intro ids
    induction ids with
    | nil => intro acc hacc; exact hacc
    | cons i rest ih =>
      intro acc hacc
      rw [List.foldl_cons]
      apply ih
      by_cases hii : i = id
      · subst hii
        rw [checkStep_gate_skip p1 ts1 acc i g hacc hfail]
        exact hacc
      · rw [checkStep_lookup_other p1 ts1 acc i id hii]
        exact hacc
  have hpres : mapGet ((checkLocation st p1 ts1).1).geofences id = some g := by
    unfold checkLocation
    exact hgatefold _ _ hget
  have hwk1 : wellKeyed ((checkLocation st p1 ts1).1).geofences = true := by
    unfold checkLocation
    exact checkFold_wellKeyed p1 ts1 _ _ hwk
  refine ⟨hpres, ?_⟩
  set st1 := (checkLocation st p1 ts1).1 with hst1
  show id ∉ ((checkLocation st1 p2 ts2).2).entered.map (fun r => r.id)
  unfold checkLocation
  exact checkFold_no_enter p2 ts2 id g hwas hinside2 _ _ hpres hwk1 (by simp)

theorem wPoint_cell : getGridCell wPoint.latitude wPoint.longitude = (500, 500) := by
  simp only [wPoint, getGridCell, GRID_SIZE, Prod.mk.injEq]
  constructor <;> norm_num [Int.floor_eq_iff]

theorem wPoint_inside_wSquare : isPointInPolygon wPoint wSquare = true := by
  norm_num [isPointInPolygon, wSquare, wPoint, rayCastStep, List.rotate]

/-- C1 witness: the state update evaluated on wRegion (already Inside,
gates trivially passing) at the interior point wPoint. -/
theorem C1_state_updated_even_without_events_witness :
    (mapGet wIndexState.geofences "w" = some wRegion
      ∧ "w" ∈ getCandidateIds wIndexState wPoint
      ∧ isTimeRuleActive wRegion 0 = true
      ∧ areConditionalRulesActive wRegion = true)
    ∧ mapGet ((checkLocation wIndexState wPoint 0).1).geofences "w" =
        some { wRegion with wasInside := some (isPointInside wPoint wRegion) } := by
  have h1 : mapGet wIndexState.geofences "w" = some wRegion := rfl
  have h3 : isTimeRuleActive wRegion 0 = true := rfl
  have h4 : areConditionalRulesActive wRegion = true := rfl
  have h2 : "w" ∈ getCandidateIds wIndexState wPoint := by
    apply getCandidateIds_of_mem_own
    rw [wPoint_cell]
    exact List.mem_singleton.mpr rfl
  exact ⟨⟨h1, h2, h3, h4⟩,
    C1_state_updated_even_without_events wIndexState wPoint 0 "w" wRegion h1 h2 h3 h4⟩

/-- C2 witness: w2Region is time-ineligible at the epoch (a Thursday)
and eligible one day later (a Friday); with the device inside wSquare
throughout, the first pass preserves the Inside state and the second
pass emits no Enter. -/
theorem C2_gate_skip_preserves_state_witness :
    (wellKeyed w2State.geofences = true
      ∧ mapGet w2State.geofences "w2" = some w2Region
      ∧ isTimeRuleActive w2Region 0 = false
      ∧ w2Region.wasInside = some true
      ∧ isTimeRuleActive w2Region 86400000 = true
      ∧ areConditionalRulesActive w2Region = true
      ∧ isPointInside wPoint w2Region = true)
    ∧ mapGet ((checkLocation w2State wPoint 0).1).geofences "w2" = some w2Region
    ∧ "w2" ∉ (((checkLocation (checkLocation w2State wPoint 0).1 wPoint 86400000).2).entered.map
        (fun r => r.id)) := by
  have hwk : wellKeyed w2State.geofences = true := rfl
  have hget : mapGet w2State.geofences "w2" = some w2Region := rfl
  have hfail : isTimeRuleActive w2Region 0 = false := rfl
  have hwas : w2Region.wasInside = some true := rfl
  have hpass2 : isTimeRuleActive w2Region 86400000 = true := rfl
  have hcond2 : areConditionalRulesActive w2Region = true := rfl
  have hinside2 : isPointInside wPoint w2Region = true := by
    show isPointInPolygon wPoint w2Region.vertices = true
    exact wPoint_inside_wSquare
  have hmain := C2_gate_skip_preserves_state w2State wPoint wPoint 0 86400000 "w2" w2Region
    hwk hget (Or.inl hfail) hwas hpass2 hcond2 hinside2
  exact ⟨⟨hwk, hget, hfail, hwas, hpass2, hcond2, hinside2⟩, hmain.1, hmain.2⟩

/-- C4 (amended): when start is at most end the rule matches exactly the
closed interval [start, end] of minutes (the end minute included), and
when start exceeds end the window wraps across midnight, matching
minute-of-day at least start or at most end (end included). -/
theorem C4_time_window_closed_interval (t s e : ℕ) :
    isTimeInRange t s e = true ↔
      ((s ≤ e ∧ s ≤ t ∧ t ≤ e) ∨ (e < s ∧ (s ≤ t ∨ t ≤ e))) := by
  unfold isTimeInRange
  by_cases h : s ≤ e
  · rw [if_pos h]
    simp only [Bool.and_eq_true, decide_eq_true_eq, ge_iff_le]
    omega
  · rw [if_neg h]
    simp only [Bool.or_eq_true, decide_eq_true_eq, ge_iff_le]
    omega

theorem foldl_min_le_seed (xs : List ℚ) : ∀ x : ℚ, xs.foldl min x ≤ x := by
  induction xs with
  | nil => intro x; exact le_refl x
  | cons y ys ih => intro x; exact le_trans (ih (min x y)) (min_le_left x y)

theorem foldl_min_le_of_mem (xs : List ℚ) : ∀ x a : ℚ, a ∈ xs → xs.foldl min x ≤ a := by
  induction xs with
  | nil => intro x a h; cases h
  | cons y ys ih =>
    intro x a h
    rw [List.foldl_cons]
    rcases List.mem_cons.mp h with rfl | h2
    · exact le_trans (foldl_min_le_seed ys (min x a)) (min_le_right x a)
    · exact ih (min x y) a h2

theorem jsMinList_le_of_mem {a : ℚ} {l : List ℚ} (h : a ∈ l) : jsMinList l ≤ a := by
  match l with
  | [] => cases h
  | x :: xs =>
    show xs.foldl min x ≤ a
    rcases List.mem_cons.mp h with rfl | h2
    · exact foldl_min_le_seed xs a
    · exact foldl_min_le_of_mem xs x a h2

theorem seed_le_foldl_max (xs : List ℚ) : ∀ x : ℚ, x ≤ xs.foldl max x := by
  induction xs with
  | nil => intro x; exact le_refl x
  | cons y ys ih => intro x; exact le_trans (le_max_left x y) (ih (max x y))

theorem le_foldl_max_of_mem (xs : List ℚ) : ∀ x a : ℚ, a ∈ xs → a ≤ xs.foldl max x := by
  induction xs with
  | nil => intro x a h; cases h
  | cons y ys ih =>
    intro x a h
    rw [List.foldl_cons]
    rcases List.mem_cons.mp h with rfl | h2
    · exact le_trans (le_max_right x a) (seed_le_foldl_max ys (max x a))
    · exact ih (max x y) a h2

theorem le_jsMaxList_of_mem {a : ℚ} {l : List ℚ} (h : a ∈ l) : a ≤ jsMaxList l := by
  match l with
  | [] => cases h
  | x :: xs =>
    show a ≤ xs.foldl max x
    rcases List.mem_cons.mp h with rfl | h2
    · exact seed_le_foldl_max xs a
    · exact le_foldl_max_of_mem xs x a h2

theorem foldl_id_of_steps {α β : Type} (f : β → α → β) :
    ∀ (l : List α) (b : β), (∀ e ∈ l, ∀ acc, f acc e = acc) → l.foldl f b = b := by
  intro l
  induction l with
  | nil => intro b _; rfl
  | cons e es ih =>
    intro b h
    rw [List.foldl_cons, h e (List.mem_cons_self e es) b]
    exact ih b (fun e2 he2 acc => h e2 (List.mem_cons_of_mem e he2) acc)

theorem foldl_congr_mem {α β : Type} (f g : β → α → β) :
    ∀ (l : List α) (b : β), (∀ e ∈ l, ∀ acc, f acc e = g acc e) →
      l.foldl f b = l.foldl g b := by
  intro l
  induction l with
  | nil => intro b _; rfl
  | cons e es ih =>
    intro b h
    rw [List.foldl_cons, List.foldl_cons, h e (List.mem_cons_self e es)]
    exact ih _ (fun e2 he2 acc => h e2 (List.mem_cons_of_mem e he2) acc)

theorem foldl_toggle_parity {α : Type} (q : α → Bool) :
    ∀ (l : List α) (b : Bool),
      l.foldl (fun acc e => if q e = true then !acc else acc) b
        = (b != decide (l.countP q % 2 = 1)) := by
  intro l
  induction l with
  | nil =>
    intro b
    simp [List.countP_nil]
  | cons e es ih =>
    intro b
    rw [List.foldl_cons]
    by_cases hq : q e = true
    · rw [if_pos hq, ih, List.countP_cons, hq]
      rcases Nat.mod_two_eq_zero_or_one (es.countP q) with hp | hp
      · have h2 : (es.countP q + 1) % 2 = 1 := by omega
        simp [hp, h2]
      · have h2 : (es.countP q + 1) % 2 = 0 := by omega
        simp [hp, h2]
    · have hqf : q e = false := by revert hq; cases q e <;> simp
      rw [if_neg hq, ih, List.countP_cons, hqf]
      simp

theorem countP_mismatch_zip (h : Point → Bool) :
    ∀ l1 l2 : List Point, l1.length = l2.length →
      (l1.zip l2).countP (fun vv => h vv.1 != h vv.2) % 2
        = (l1.countP h + l2.countP h) % 2 := by
  intro l1
  induction l1 with
  | nil =>
    intro l2 hlen
    cases l2 with
    | nil => rfl
    | cons c cs => simp at hlen
  | cons a as ih =>
    intro l2 hlen
    cases l2 with
    | nil => simp at hlen
    | cons c cs =>
      have hl : as.length = cs.length := by simpa using hlen
      have ihr := ih cs hl
      rw [List.zip_cons_cons, List.countP_cons, List.countP_cons, List.countP_cons]
      cases ha : h a <;> cases hc : h c <;> simp [ha, hc] <;> omega

theorem crossing_count_even (y : ℚ) (vs : List Point) (k : ℕ) :
    (vs.zip (vs.rotate k)).countP
      (fun vv => decide (vv.1.latitude > y) != decide (vv.2.latitude > y)) % 2 = 0 := by
  have h := countP_mismatch_zip (fun v => decide (v.latitude > y)) vs (vs.rotate k)
    (List.length_rotate vs k).symm
  rw [(List.rotate_perm vs k).countP_eq (fun v => decide (v.latitude > y))] at h
  have h2 : (vs.countP (fun v => decide (v.latitude > y))
      + vs.countP (fun v => decide (v.latitude > y))) % 2 = 0 := by omega
  exact h.trans h2

theorem mem_intRange {a b n : ℤ} : n ∈ intRange a b ↔ a ≤ n ∧ n ≤ b := by
  rw [intRange]
  constructor
  · intro h
    obtain ⟨k, hk, he⟩ := List.mem_map.mp h
    rw [List.mem_range] at hk
    have he2 : a + (k : ℤ) = n := he
    omega
  · intro hab
    apply List.mem_map.mpr
    refine ⟨(n - a).toNat, ?_, ?_⟩
    · rw [List.mem_range]
      omega
    · show a + ((n - a).toNat : ℤ) = n
      omega

theorem mem_getGridCells_iff {bb : BoundingBox} {c : ℤ × ℤ} :
    c ∈ getGridCells bb ↔
      (⌊bb.minLat / ((GRID_SIZE : ℚ) : ℝ)⌋ ≤ c.1 ∧ c.1 ≤ ⌊bb.maxLat / ((GRID_SIZE : ℚ) : ℝ)⌋ ∧
        ⌊bb.minLng / ((GRID_SIZE : ℚ) : ℝ)⌋ ≤ c.2 ∧ c.2 ≤ ⌊bb.maxLng / ((GRID_SIZE : ℚ) : ℝ)⌋) := by
  simp only [getGridCells, List.mem_flatMap, List.mem_map]
  constructor
  · rintro ⟨la, hla, _, hln, rfl⟩
    rw [mem_intRange] at hla hln
    exact ⟨hla.1, hla.2, hln.1, hln.2⟩
  · rintro ⟨h1, h2, h3, h4⟩
    exact ⟨c.1, mem_intRange.mpr ⟨h1, h2⟩, c.2, mem_intRange.mpr ⟨h3, h4⟩, rfl⟩

theorem floor_cast_div_grid (a : ℚ) :
    ⌊((a : ℚ) : ℝ) / ((GRID_SIZE : ℚ) : ℝ)⌋ = ⌊a / GRID_SIZE⌋ := by
  have h1 : ((a : ℚ) : ℝ) / ((GRID_SIZE : ℚ) : ℝ) = ((a / GRID_SIZE : ℚ) : ℝ) := by
    push_cast
    ring
  rw [h1, Rat.floor_cast]

theorem floor_div_grid_mono {a b : ℚ} (hab : a ≤ b) : ⌊a / GRID_SIZE⌋ ≤ ⌊b / GRID_SIZE⌋ := by
  have hS : (0 : ℚ) < GRID_SIZE := by norm_num [GRID_SIZE]
  exact Int.floor_mono ((div_le_div_iff_of_pos_right hS).mpr hab)

theorem crossing_xstar_bounds (y : ℚ) (a c : Point)
    (hcross : (a.latitude > y) ≠ (c.latitude > y)) :
    min a.longitude c.longitude ≤
        (c.longitude - a.longitude) * (y - a.latitude) / (c.latitude - a.latitude) + a.longitude
      ∧ (c.longitude - a.longitude) * (y - a.latitude) / (c.latitude - a.latitude) + a.longitude ≤
        max a.longitude c.longitude := by
  have key : ∀ t : ℚ, 0 ≤ t → t ≤ 1 →
      min a.longitude c.longitude ≤ a.longitude + (c.longitude - a.longitude) * t
        ∧ a.longitude + (c.longitude - a.longitude) * t ≤ max a.longitude c.longitude := by
    intro t h0 h1
    rcases le_total a.longitude c.longitude with hlc | hlc
    · constructor
      · rw [min_eq_left hlc]
        nlinarith
      · rw [max_eq_right hlc]
        nlinarith
    · constructor
      · rw [min_eq_right hlc]
        nlinarith
      · rw [max_eq_left hlc]
        nlinarith
  have hrw : (c.longitude - a.longitude) * (y - a.latitude) / (c.latitude - a.latitude)
        + a.longitude
      = a.longitude
        + (c.longitude - a.longitude) * ((y - a.latitude) / (c.latitude - a.latitude)) := by
    rw [mul_div_assoc]
    ring
  have htb : 0 ≤ (y - a.latitude) / (c.latitude - a.latitude)
      ∧ (y - a.latitude) / (c.latitude - a.latitude) ≤ 1 := by
    by_cases h1 : a.latitude > y <;> by_cases h2 : c.latitude > y
    · exact absurd ((eq_true h1).trans (eq_true h2).symm) hcross
    · push_neg at h2
      have hd : c.latitude - a.latitude < 0 := by linarith
      constructor
      · rw [← neg_div_neg_eq]
        exact div_nonneg (by linarith) (by linarith)
      · rw [div_le_iff_of_neg hd]
        linarith
    · push_neg at h1
      have hd : (0 : ℚ) < c.latitude - a.latitude := by linarith
      constructor
      · exact div_nonneg (by linarith) (le_of_lt hd)
      · rw [div_le_one hd]
        linarith
    · exact absurd ((eq_false h1).trans (eq_false h2).symm) hcross
  rw [hrw]
  exact key _ htb.1 htb.2

theorem rayCastStep_id_of_no_cross (x y : ℚ) (vv : Point × Point)
    (h : ¬ ((vv.1.latitude > y) ≠ (vv.2.latitude > y))) (b : Bool) :
    rayCastStep x y b vv = b := by
  rw [rayCastStep, if_neg]
  exact fun hc => h hc.1

theorem rayCastStep_id_of_ge (x y : ℚ) (vv : Point × Point)
    (hx : max vv.1.longitude vv.2.longitude ≤ x) (b : Bool) :
    rayCastStep x y b vv = b := by
  rw [rayCastStep, if_neg]
  rintro ⟨hc, hlt⟩
  have hb := (crossing_xstar_bounds y vv.1 vv.2 hc).2
  linarith

theorem rayCastStep_toggle_of_lt (x y : ℚ) (vv : Point × Point)
    (hx : x < min vv.1.longitude vv.2.longitude) (b : Bool) :
    rayCastStep x y b vv =
      (if (decide (vv.1.latitude > y) != decide (vv.2.latitude > y)) = true
        then !b else b) := by
  by_cases h1 : vv.1.latitude > y <;> by_cases h2 : vv.2.latitude > y
  · rw [rayCastStep_id_of_no_cross x y vv
      (fun hne => hne ((eq_true h1).trans (eq_true h2).symm)) b]
    simp [h1, h2]
  · have hc : (vv.1.latitude > y) ≠ (vv.2.latitude > y) := by
      rw [eq_true h1, eq_false h2]
      simp
    rw [rayCastStep,
      if_pos ⟨hc, lt_of_lt_of_le hx (crossing_xstar_bounds y vv.1 vv.2 hc).1⟩]
    simp [h1, h2]
  · have hc : (vv.1.latitude > y) ≠ (vv.2.latitude > y) := by
      rw [eq_false h1, eq_true h2]
      simp
    rw [rayCastStep,
      if_pos ⟨hc, lt_of_lt_of_le hx (crossing_xstar_bounds y vv.1 vv.2 hc).1⟩]
    simp [h1, h2]
  · rw [rayCastStep_id_of_no_cross x y vv
      (fun hne => hne ((eq_false h1).trans (eq_false h2).symm)) b]
    simp [h1, h2]

theorem isPointInPolygon_elim {p : Point} {vs : List Point}
    (h : isPointInPolygon p vs = true) :
    ¬ vs.length < 3 ∧
      (vs.zip (vs.rotate (vs.length - 1))).foldl
        (rayCastStep p.longitude p.latitude) false = true := by
  by_cases hlen : vs.length < 3
  · rw [isPointInPolygon, if_pos hlen] at h
    cases h
  · rw [isPointInPolygon, if_neg hlen] at h
    exact ⟨hlen, h⟩

theorem inside_lat_bounds {p : Point} {vs : List Point}
    (h : isPointInPolygon p vs = true) :
    jsMinList (vs.map Point.latitude) ≤ p.latitude
      ∧ p.latitude ≤ jsMaxList (vs.map Point.latitude) := by
  obtain ⟨hlen, hfold⟩ := isPointInPolygon_elim h
  have hnotall : ¬ ∀ v1 ∈ vs, ∀ v2 ∈ vs,
      ((v1.latitude > p.latitude) ↔ (v2.latitude > p.latitude)) := by
    intro hall
    have hsteps : ∀ vv ∈ vs.zip (vs.rotate (vs.length - 1)), ∀ acc,
        rayCastStep p.longitude p.latitude acc vv = acc := by
      intro vv hvv b
      obtain ⟨h1, h2⟩ := List.of_mem_zip hvv
      rw [List.mem_rotate] at h2
      exact rayCastStep_id_of_no_cross _ _ vv
        (fun hne => hne (propext (hall vv.1 h1 vv.2 h2))) b
    rw [foldl_id_of_steps _ _ _ hsteps] at hfold
    cases hfold
  push_neg at hnotall
  obtain ⟨v1, hv1, v2, hv2, hne⟩ := hnotall
  rcases hne with ⟨ha, hb⟩ | ⟨ha, hb⟩
  · constructor
    · exact le_trans (jsMinList_le_of_mem (List.mem_map.mpr ⟨v2, hv2, rfl⟩)) hb
    · exact le_of_lt (lt_of_lt_of_le ha
        (le_jsMaxList_of_mem (List.mem_map.mpr ⟨v1, hv1, rfl⟩)))
  · constructor
    · exact le_trans (jsMinList_le_of_mem (List.mem_map.mpr ⟨v1, hv1, rfl⟩)) ha
    · exact le_of_lt (lt_of_lt_of_le hb
        (le_jsMaxList_of_mem (List.mem_map.mpr ⟨v2, hv2, rfl⟩)))

theorem inside_lng_ub {p : Point} {vs : List Point}
    (h : isPointInPolygon p vs = true) :
    p.longitude ≤ jsMaxList (vs.map Point.longitude) := by
  obtain ⟨hlen, hfold⟩ := isPointInPolygon_elim h
  by_contra hgt
  push_neg at hgt
  have hsteps : ∀ vv ∈ vs.zip (vs.rotate (vs.length - 1)), ∀ acc,
      rayCastStep p.longitude p.latitude acc vv = acc := by
    intro vv hvv b
    obtain ⟨h1, h2⟩ := List.of_mem_zip hvv
    rw [List.mem_rotate] at h2
    apply rayCastStep_id_of_ge
    have hb1 : vv.1.longitude ≤ jsMaxList (vs.map Point.longitude) :=
      le_jsMaxList_of_mem (List.mem_map.mpr ⟨vv.1, h1, rfl⟩)
    have hb2 : vv.2.longitude ≤ jsMaxList (vs.map Point.longitude) :=
      le_jsMaxList_of_mem (List.mem_map.mpr ⟨vv.2, h2, rfl⟩)
    rw [max_le_iff]
    exact ⟨le_of_lt (lt_of_le_of_lt hb1 hgt), le_of_lt (lt_of_le_of_lt hb2 hgt)⟩
  rw [foldl_id_of_steps _ _ _ hsteps] at hfold
  cases hfold

theorem inside_lng_lb {p : Point} {vs : List Point}
    (h : isPointInPolygon p vs = true) :
    jsMinList (vs.map Point.longitude) ≤ p.longitude := by
  obtain ⟨hlen, hfold⟩ := isPointInPolygon_elim h
  by_contra hgt
  push_neg at hgt
  have hlt : ∀ v ∈ vs, p.longitude < v.longitude := by
    intro v hv
    exact lt_of_lt_of_le hgt (jsMinList_le_of_mem (List.mem_map.mpr ⟨v, hv, rfl⟩))
  have hcong := foldl_congr_mem (rayCastStep p.longitude p.latitude)
    (fun acc vv => if (decide (vv.1.latitude > p.latitude)
        != decide (vv.2.latitude > p.latitude)) = true then !acc else acc)
    (vs.zip (vs.rotate (vs.length - 1))) false ?steps
  case steps =>
    intro vv hvv acc
    obtain ⟨h1, h2⟩ := List.of_mem_zip hvv
    rw [List.mem_rotate] at h2
    exact rayCastStep_toggle_of_lt _ _ vv (lt_min (hlt vv.1 h1) (hlt vv.2 h2)) acc
  have hpar := foldl_toggle_parity
    (fun vv : Point × Point => decide (vv.1.latitude > p.latitude)
      != decide (vv.2.latitude > p.latitude))
    (vs.zip (vs.rotate (vs.length - 1))) false
  have hval : (false != decide ((vs.zip (vs.rotate (vs.length - 1))).countP
      (fun vv : Point × Point => decide (vv.1.latitude > p.latitude)
        != decide (vv.2.latitude > p.latitude)) % 2 = 1)) = true :=
    hpar.symm.trans (hcong.symm.trans hfold)
  have heven := crossing_count_even p.latitude vs (vs.length - 1)
  rw [heven] at hval
  simp at hval

theorem calculateBoundingBox_polygon {g : AdvancedGeofenceRegion}
    (htype : g.type = GeofenceType.polygon) :
    calculateBoundingBox g = polygonBoundingBox g.vertices := by
  cases hcen : g.center <;> cases hrad : g.radius <;>
    rw [calculateBoundingBox, htype, hcen, hrad]

theorem getGridCell_mem_getGridCells_polygon {p : Point} {vs : List Point}
    (h : isPointInPolygon p vs = true) :
    getGridCell p.latitude p.longitude ∈ getGridCells (polygonBoundingBox vs) := by
  obtain ⟨hminlat, hmaxlat⟩ := inside_lat_bounds h
  have hminlng := inside_lng_lb h
  have hmaxlng := inside_lng_ub h
  rw [mem_getGridCells_iff]
  refine ⟨?_, ?_, ?_, ?_⟩
  · show ⌊(polygonBoundingBox vs).minLat / ((GRID_SIZE : ℚ) : ℝ)⌋ ≤ ⌊p.latitude / GRID_SIZE⌋
    rw [polygonBoundingBox, floor_cast_div_grid]
    exact floor_div_grid_mono hminlat
  · show ⌊p.latitude / GRID_SIZE⌋ ≤ ⌊(polygonBoundingBox vs).maxLat / ((GRID_SIZE : ℚ) : ℝ)⌋
    rw [polygonBoundingBox, floor_cast_div_grid]
    exact floor_div_grid_mono hmaxlat
  · show ⌊(polygonBoundingBox vs).minLng / ((GRID_SIZE : ℚ) : ℝ)⌋ ≤ ⌊p.longitude / GRID_SIZE⌋
    rw [polygonBoundingBox, floor_cast_div_grid]
    exact floor_div_grid_mono hminlng
  · show ⌊p.longitude / GRID_SIZE⌋ ≤ ⌊(polygonBoundingBox vs).maxLng / ((GRID_SIZE : ℚ) : ℝ)⌋
    rw [polygonBoundingBox, floor_cast_div_grid]
    exact floor_div_grid_mono hmaxlng

/-- C3 (amended): restricted to polygon regions the claim holds: a
polygon that is stored and indexed and whose ray-cast containment test
accepts p always appears among the candidates returned for p.  For
circle regions the claim fails (see the counterexample): the bounding
box uses a flat 111 km-per-degree conversion that understates the
angular radius of a large circle, so a point inside the circle can lie
outside every indexed grid cell. -/
theorem C3_polygon_candidates_no_false_negative (st : PGState)
    (g : AdvancedGeofenceRegion) (p : Point) (hidx : AddedAndIndexed st g)
    (htype : g.type = GeofenceType.polygon) (hin : isPointInside p g = true) :
    g ∈ getCandidateGeofences st p := by
  obtain ⟨hget, hbb, hcells⟩ := hidx
  have hne : ¬ (g.type = GeofenceType.circle) := by
    rw [htype]
    exact fun hcc => GeofenceType.noConfusion hcc
  rw [isPointInside, if_neg hne] at hin
  have hcell : getGridCell p.latitude p.longitude
      ∈ getGridCells (calculateBoundingBox g) := by
    rw [calculateBoundingBox_polygon htype]
    exact getGridCell_mem_getGridCells_polygon hin
  have hid : g.id ∈ (mapGet st.spatialIndex (getGridCell p.latitude p.longitude)).getD [] :=
    hcells _ hcell
  have hidc : g.id ∈ getCandidateIds st p := getCandidateIds_of_mem_own st p g.id hid
  rw [getCandidateGeofences]
  exact List.mem_filterMap.mpr ⟨g.id, hidc, hget⟩

theorem smallBB_eval : calculateBoundingBox smallRegion = polygonBoundingBox smallSquare := by
  rw [calculateBoundingBox_polygon rfl]
  rfl

set_option maxHeartbeats 2000000 in
theorem smallCells_eval : getGridCells (calculateBoundingBox smallRegion) = [(0, 0)] := by
  rw [smallBB_eval]
  have hlat : smallSquare.map Point.latitude = [0, 0, 1 / 200, 1 / 200] := rfl
  have hlng : smallSquare.map Point.longitude = [0, 1 / 200, 1 / 200, 0] := rfl
  have hmin1 : jsMinList [(0 : ℚ), 0, 1 / 200, 1 / 200] = 0 := by
    show List.foldl min 0 [0, 1 / 200, 1 / 200] = 0
    simp only [List.foldl_cons, List.foldl_nil]
    rw [min_self, min_eq_left (show (0 : ℚ) ≤ 1 / 200 by norm_num),
      min_eq_left (show (0 : ℚ) ≤ 1 / 200 by norm_num)]
  have hmax1 : jsMaxList [(0 : ℚ), 0, 1 / 200, 1 / 200] = 1 / 200 := by
    show List.foldl max 0 [0, 1 / 200, 1 / 200] = 1 / 200
    simp only [List.foldl_cons, List.foldl_nil]
    rw [max_self, max_eq_right (show (0 : ℚ) ≤ 1 / 200 by norm_num), max_self]
  have hmin2 : jsMinList [(0 : ℚ), 1 / 200, 1 / 200, 0] = 0 := by
    show List.foldl min 0 [1 / 200, 1 / 200, 0] = 0
    simp only [List.foldl_cons, List.foldl_nil]
    rw [min_eq_left (show (0 : ℚ) ≤ 1 / 200 by norm_num),
      min_eq_left (show (0 : ℚ) ≤ 1 / 200 by norm_num), min_self]
  have hmax2 : jsMaxList [(0 : ℚ), 1 / 200, 1 / 200, 0] = 1 / 200 := by
    show List.foldl max 0 [1 / 200, 1 / 200, 0] = 1 / 200
    simp only [List.foldl_cons, List.foldl_nil]
    rw [max_eq_right (show (0 : ℚ) ≤ 1 / 200 by norm_num), max_self,
      max_eq_left (show (0 : ℚ) ≤ 1 / 200 by norm_num)]
  have hf0 : ⌊((0 : ℚ) : ℝ) / ((GRID_SIZE : ℚ) : ℝ)⌋ = 0 := by
    rw [floor_cast_div_grid]
    norm_num [GRID_SIZE]
  have hf1 : ⌊((1 / 200 : ℚ) : ℝ) / ((GRID_SIZE : ℚ) : ℝ)⌋ = 0 := by
    rw [floor_cast_div_grid]
    rw [show (1 / 200 : ℚ) / GRID_SIZE = 1 / 2 by norm_num [GRID_SIZE]]
    norm_num [Int.floor_eq_iff]
  simp only [getGridCells, polygonBoundingBox, hlat, hlng, hmin1, hmax1, hmin2, hmax2,
    hf0, hf1]
  rfl

/-- C3 witness: the amended theorem evaluated on a concrete 0.005-degree
square stored and indexed at its single grid cell, and an interior
point. -/
theorem C3_polygon_candidates_no_false_negative_witness :
    AddedAndIndexed smallState smallRegion
      ∧ smallRegion.type = GeofenceType.polygon
      ∧ isPointInside smallPoint smallRegion = true
      ∧ smallRegion ∈ getCandidateGeofences smallState smallPoint := by
  have hidx : AddedAndIndexed smallState smallRegion := by
    refine ⟨rfl, rfl, ?_⟩
    intro c hc
    rw [smallCells_eval] at hc
    rw [List.mem_singleton.mp hc]
    exact List.mem_singleton.mpr rfl
  have htype : smallRegion.type = GeofenceType.polygon := rfl
  have hin : isPointInside smallPoint smallRegion = true := by
    show isPointInPolygon smallPoint smallSquare = true
    norm_num [isPointInPolygon, smallSquare, smallPoint, rayCastStep, List.rotate]
  exact ⟨hidx, htype, hin,
    C3_polygon_candidates_no_false_negative smallState smallRegion smallPoint hidx htype hin⟩

theorem atan2_le_of_bounds {A : ℝ} (h1 : A ≤ 0.64) :
    atan2 (Real.sqrt A) (Real.sqrt (1 - A)) ≤ Real.pi / 2 - 0.48 := by
  have hx : (0.6 : ℝ) ≤ Real.sqrt (1 - A) := by
    rw [Real.le_sqrt' (by norm_num)]
    nlinarith
  have hxpos : (0 : ℝ) < Real.sqrt (1 - A) := lt_of_lt_of_le (by norm_num) hx
  have hy : Real.sqrt A ≤ 0.8 := by
    rw [Real.sqrt_le_iff]
    constructor
    · norm_num
    · nlinarith
  rw [atan2, if_pos hxpos]
  have hratio : Real.sqrt A / Real.sqrt (1 - A) ≤ 4 / 3 := by
    have hq := div_le_div₀ (by norm_num : (0 : ℝ) ≤ 0.8) hy (by norm_num : (0 : ℝ) < 0.6) hx
    calc Real.sqrt A / Real.sqrt (1 - A) ≤ 0.8 / 0.6 := hq
    _ = 4 / 3 := by norm_num
  have harc : Real.arctan (Real.sqrt A / Real.sqrt (1 - A)) ≤ Real.arctan (4 / 3) :=
    Real.arctan_strictMono.monotone hratio
  have h43 : Real.arctan (4 / 3) = Real.pi / 2 - Real.arctan (3 / 4) := by
    rw [show ((4 : ℝ) / 3) = ((3 : ℝ) / 4)⁻¹ by norm_num,
      Real.arctan_inv_of_pos (by norm_num)]
  have hpil : (3.1415 : ℝ) < Real.pi := Real.pi_gt_d4
  have h34 : (0.48 : ℝ) ≤ Real.arctan (3 / 4) := by
    have hcos : (1 : ℝ) - (0.48 : ℝ) ^ 2 / 2 ≤ Real.cos 0.48 := Real.one_sub_sq_div_two_le_cos
    have hcpos : (0 : ℝ) < Real.cos 0.48 := by nlinarith
    have htan : Real.tan 0.48 ≤ 3 / 4 := by
      rw [Real.tan_eq_sin_div_cos, div_le_iff₀ hcpos]
      have hsin : Real.sin 0.48 ≤ 0.48 := Real.sin_le (by norm_num)
      nlinarith
    have h048 : Real.arctan (Real.tan 0.48) = 0.48 :=
      Real.arctan_tan (by nlinarith) (by nlinarith)
    rw [← h048]
    exact Real.arctan_strictMono.monotone htan
  linarith

theorem bigDistance_le : calculateDistance 85 179 0 0 ≤ 14000000 := by
  simp only [calculateDistance, toRadians]
  have e1 : ((0 - 85 : ℚ) : ℝ) = -85 := by norm_num
  have e2 : ((0 - 179 : ℚ) : ℝ) = -179 := by norm_num
  have e3 : ((85 : ℚ) : ℝ) = 85 := by norm_num
  have e4 : ((0 : ℚ) : ℝ) = 0 := by norm_num
  rw [e1, e2, e3, e4, zero_mul, Real.cos_zero]
  have hpil : (3.1415 : ℝ) < Real.pi := Real.pi_gt_d4
  have hpiu : Real.pi < 3.1416 := Real.pi_lt_d4
  have hs1 : Real.sin (-85 * (Real.pi / 180) / 2) * Real.sin (-85 * (Real.pi / 180) / 2)
      ≤ 0.5503 := by
    have h : Real.sin (-85 * (Real.pi / 180) / 2) ^ 2 ≤ (-85 * (Real.pi / 180) / 2) ^ 2 :=
      Real.sin_sq_le_sq
    nlinarith [h]
  have hc85u : Real.cos (85 * (Real.pi / 180)) ≤ 0.0873 := by
    have h1' : Real.sin (Real.pi / 2 - 85 * (Real.pi / 180))
        = Real.cos (85 * (Real.pi / 180)) :=
      Real.sin_pi_div_two_sub _
    have h2' : Real.sin (Real.pi / 2 - 85 * (Real.pi / 180))
        ≤ Real.pi / 2 - 85 * (Real.pi / 180) :=
      Real.sin_le (by linarith)
    linarith
  have hc85l : (0 : ℝ) ≤ Real.cos (85 * (Real.pi / 180)) :=
    Real.cos_nonneg_of_mem_Icc ⟨by linarith, by linarith⟩
  have hs2 : Real.sin (-179 * (Real.pi / 180) / 2) * Real.sin (-179 * (Real.pi / 180) / 2)
      ≤ 1 := by
    nlinarith [Real.sin_le_one (-179 * (Real.pi / 180) / 2),
      Real.neg_one_le_sin (-179 * (Real.pi / 180) / 2)]
  have hs2l : (0 : ℝ) ≤ Real.sin (-179 * (Real.pi / 180) / 2)
      * Real.sin (-179 * (Real.pi / 180) / 2) :=
    mul_self_nonneg _
  have hs1l : (0 : ℝ) ≤ Real.sin (-85 * (Real.pi / 180) / 2)
      * Real.sin (-85 * (Real.pi / 180) / 2) :=
    mul_self_nonneg _
  have hA1 : Real.sin (-85 * (Real.pi / 180) / 2) * Real.sin (-85 * (Real.pi / 180) / 2) +
      Real.cos (85 * (Real.pi / 180)) * 1 *
        Real.sin (-179 * (Real.pi / 180) / 2) * Real.sin (-179 * (Real.pi / 180) / 2)
      ≤ 0.64 := by
    nlinarith [hs1, hc85u, hc85l, hs2, hs2l]
  have hbound := atan2_le_of_bounds hA1
  linarith [hbound, hpiu]

theorem foldl_buckets_nil (st : PGState) (cells : List (ℤ × ℤ))
    (h : ∀ cell ∈ cells, mapGet st.spatialIndex cell = none) :
    ∀ acc : List String,
      cells.foldl (fun acc cell => ((mapGet st.spatialIndex cell).getD []).foldl setAdd acc) acc
        = acc := by
  induction cells with
  | nil => intro acc; rfl
  | cons c rest ih =>
    intro acc
    rw [List.foldl_cons, h c (List.mem_cons_self c rest)]
    exact ih (fun cell hc => h cell (List.mem_cons_of_mem c hc)) acc

theorem getCandidateIds_nil (st : PGState) (p : Point)
    (hown : mapGet st.spatialIndex (getGridCell p.latitude p.longitude) = none)
    (hadj : ∀ cell ∈ getAdjacentCells (getGridCell p.latitude p.longitude),
      mapGet st.spatialIndex cell = none) :
    getCandidateIds st p = [] := by
  simp only [getCandidateIds]
  rw [hown]
  exact foldl_buckets_nil st _ hadj []

theorem bigBB_maxLng : (calculateBoundingBox bigRegionIn).maxLng =
    ((0 : ℚ) : ℝ) + ((14000000 : ℚ) : ℝ) / 111000 / Real.cos (toRadians ((0 : ℚ) : ℝ)) := rfl

theorem bigBB_maxLngGrid :
    ⌊(calculateBoundingBox bigRegionIn).maxLng / ((GRID_SIZE : ℚ) : ℝ)⌋ = 12612 := by
  rw [bigBB_maxLng, toRadians]
  rw [Rat.cast_zero, zero_mul, Real.cos_zero, div_one, zero_add]
  rw [Int.floor_eq_iff]
  norm_num [GRID_SIZE]

theorem not_mem_bigCells {c : ℤ × ℤ} (hc : 12613 ≤ c.2) :
    c ∉ getGridCells (calculateBoundingBox bigRegionIn) := by
  intro hmem
  rw [mem_getGridCells_iff] at hmem
  have h := hmem.2.2.2
  rw [bigBB_maxLngGrid] at h
  omega

theorem bigState_lookup_none (cell : ℤ × ℤ) (hc : 12613 ≤ cell.2) :
    mapGet bigState.spatialIndex cell = none := by
  have hidx : bigState.spatialIndex =
      (getGridCells (calculateBoundingBox bigRegionIn)).foldl
        (fun idx cell => mapSet idx cell (setAdd ((mapGet idx cell).getD []) bigRegionIn.id))
        emptyState.spatialIndex :=
    addGeofence_fst_spatialIndex emptyState bigRegionIn
  rw [hidx, lookup_foldl_insert_notmem _ _ _ _ (not_mem_bigCells hc)]
  rfl

theorem bigCell_farPoint :
    getGridCell farPoint.latitude farPoint.longitude = (8500, 17900) := by
  show getGridCell 85 179 = (8500, 17900)
  rw [getGridCell, Prod.mk.injEq]
  constructor
  · rw [show (85 : ℚ) / GRID_SIZE = 8500 by norm_num [GRID_SIZE]]
    norm_num [Int.floor_eq_iff]
  · rw [show (179 : ℚ) / GRID_SIZE = 17900 by norm_num [GRID_SIZE]]
    norm_num [Int.floor_eq_iff]

theorem bigCandidates_nil : getCandidateGeofences bigState farPoint = [] := by
  rw [getCandidateGeofences, getCandidateIds_nil]
  · rfl
  · rw [bigCell_farPoint]
    exact bigState_lookup_none _ (by norm_num)
  · intro cell hcell
    rw [bigCell_farPoint] at hcell
    apply bigState_lookup_none
    have hadj : getAdjacentCells (8500, 17900) =
        [(8499, 17899), (8499, 17900), (8499, 17901), (8500, 17899), (8500, 17901),
          (8501, 17899), (8501, 17900), (8501, 17901)] := rfl
    rw [hadj] at hcell
    fin_cases hcell <;> norm_num

/-- C3 counterexample: the claim fails for circle regions.  The circle
of radius 14000 km at the origin contains the point (85, 179): its
haversine distance from the center is below 13.9 million meters.  Yet
the indexed bounding box converts the radius with a flat 111 km per
degree, giving about 126 degrees, so the spatial index only covers
longitude cells up to 12612 while the point falls in cell 17900; the
candidate set for the point is empty and the containing region is
missed. -/
theorem C3_circle_false_negative_cex :
    AddedAndIndexed bigState bigRegion
      ∧ isPointInside farPoint bigRegion = true
      ∧ bigRegion ∉ getCandidateGeofences bigState farPoint := by
  refine ⟨⟨?_, rfl, ?_⟩, ?_, ?_⟩
  · exact addGeofence_geofences_lookup emptyState bigRegionIn
  · intro c hc
    have hidx : bigState.spatialIndex =
        (getGridCells (calculateBoundingBox bigRegionIn)).foldl
          (fun idx cell => mapSet idx cell (setAdd ((mapGet idx cell).getD []) bigRegionIn.id))
          emptyState.spatialIndex :=
      addGeofence_fst_spatialIndex emptyState bigRegionIn
    rw [hidx]
    exact self_mem_bucket_foldl_insert bigRegionIn.id _ _ c hc
  · show isPointInCircle farPoint bigRegion = true
    show (if (14000000 : ℚ) = 0 then false
      else decide (calculateDistance 85 179 0 0 ≤ ((14000000 : ℚ) : ℝ))) = true
    rw [if_neg (by norm_num : ¬ ((14000000 : ℚ) = 0))]
    rw [show ((14000000 : ℚ) : ℝ) = 14000000 by norm_num]
    rw [decide_eq_true_eq]
    exact bigDistance_le
  · rw [bigCandidates_nil]
    exact List.not_mem_nil bigRegion

end PG
